import Mathlib

/-!
# Hotel reservation system (`src/hotel/hotel.go`)

A shallow embedding of the room pool of `hotel.go` and of its four operations
`checkVacantRooms`, `reserveRooms`, `cancelReservation` and `viewRoomDetails`,
followed by theorems about them.

Modelling conventions.

* A `Room` value is the content of one Go `Room` struct.  The embedded
  `sync.Mutex` carries no data; in a sequential run `Lock` / `defer Unlock`
  are no-ops, so the three methods act on the two mutable fields only.
* The package variable `Rooms : []*Room` is a slice of pairwise distinct,
  non-nil pointers that is never reassigned.  Its state is the list of the
  pointed-to structs in slice order, and a `*Room` taken from that slice is the
  position of the struct in the list.  Writing through a pointer is `storeAt`,
  reading through it is `xs[p]?`.
* Go `int` room numbers are only compared for equality, never computed with,
  so they are `Int`.
* `errors.New msg` is `some msg`, the `nil` error is `none`.
* Text written by `fmt.Printf` is recorded in the `stdout` field of `Outcome`.
* A run-time panic (index out of range) is the `none` of `Option Outcome`.
* The read-only paths are embedded a second time on `LockedRoom`, a room
  together with the state of its mutex, with `Lock` and the deferred `Unlock`
  as explicit steps; this is the model in which "leaves the state unchanged"
  is stated, and it is related to the plain model there.
* Concurrent calls of `reserveRooms` are a list of `Call`s over one shared
  pool; a schedule names the call that takes the next step, the steps being
  the scan and then the rest of the body.
-/

namespace Hotel

/-- Room struct represents a room (`hotel.go` lines 24-29). -/
structure Room where
  RoomNumber : Int
  Reserved : Bool
  GuestName : String
  deriving DecidableEq, Repr

/-- NewRoom creates a new instance of Room (`hotel.go` lines 32-38). -/
def NewRoom (number : Int) : Room :=
  { RoomNumber := number, Reserved := false, GuestName := "" }

/-- The method `checkReserved` (`hotel.go` lines 41-46). -/
def Room.checkReserved (r : Room) : Bool :=
  r.Reserved

/-- The method `bookRoom` (`hotel.go` lines 49-55): two unconditional field writes. -/
def Room.bookRoom (name : String) (r : Room) : Room :=
  { r with Reserved := true, GuestName := name }

/-- The method `cancelRoom` (`hotel.go` lines 58-64): two unconditional field writes. -/
def Room.cancelRoom (r : Room) : Room :=
  { r with Reserved := false, GuestName := "" }

/-- The package variable `Rooms` as initialised (`hotel.go` lines 67-73). -/
def Rooms : List Room :=
  [NewRoom 101, NewRoom 102, NewRoom 103, NewRoom 104, NewRoom 105]

/-- Write through the pointer `p`: the struct at position `p` is replaced by `f` of it. -/
def storeAt (f : Room → Room) : Nat → List Room → List Room
  | _, [] => []
  | 0, r :: rs => f r :: rs
  | p + 1, r :: rs => r :: storeAt f p rs

/-- The three error values built with `errors.New`. -/
def errNoRooms : String := "no rooms available for reservation"

/-- Error of `cancelReservation` on a room that is not reserved. -/
def errNotReserved : String := "Room is not reserved"

/-- Error of `cancelReservation` and `viewRoomDetails` on an unknown number. -/
def errNotFound : String := "Room number not found"

/-- The verb `%d` applied to an `int`. -/
def fmtInt (n : Int) : String := toString n

/-- What a call leaves behind: the pool, the text printed, the returned error. -/
structure Outcome where
  Rooms : List Room
  stdout : String
  err : Option String
  deriving DecidableEq, Repr

/-- The `range` loop of `checkVacantRooms` (`hotel.go` lines 78-82): `i` is the
position of `room` in `Rooms`, `vacantRooms` the slice appended to so far. -/
def checkVacantRoomsLoop : List Room → Nat → List Nat → List Nat
  | [], _, vacantRooms => vacantRooms
  | room :: rest, i, vacantRooms =>
    if !room.checkReserved then
      checkVacantRoomsLoop rest (i + 1) (vacantRooms ++ [i])
    else
      checkVacantRoomsLoop rest (i + 1) vacantRooms

/-- The function `checkVacantRooms` (`hotel.go` lines 76-85); the result is the
slice of pointers, i.e. of positions in `Rooms`. -/
def checkVacantRooms (Rooms : List Room) : List Nat :=
  checkVacantRoomsLoop Rooms 0 []

/-- The line printed by a successful `reserveRooms`. -/
def reservedLine (number : Int) (guest : String) : String :=
  "\nRoom " ++ fmtInt number ++ " successfully reserved for guest " ++ guest

/-- The function `reserveRooms` (`hotel.go` lines 100-112). -/
def reserveRooms (name : String) (Rooms : List Room) : Option Outcome :=
  let vacantRooms := checkVacantRooms Rooms
  if vacantRooms.length = 0 then
    some { Rooms := Rooms, stdout := "", err := some errNoRooms }
  else
    match vacantRooms[0]? with
    | none => none
    | some room =>
      let Rooms1 := storeAt (Room.bookRoom name) room Rooms
      match Rooms1[room]? with
      | none => none
      | some r =>
        some { Rooms := Rooms1, stdout := reservedLine r.RoomNumber r.GuestName, err := none }

/-- The line printed by a successful `cancelReservation`. -/
def canceledLine (number : Int) : String :=
  "\nReservation for room " ++ fmtInt number ++ " has been canceled.\n"

/-- The `range` loop of `cancelReservation` (`hotel.go` lines 117-130) over the
rooms not yet visited; `i` is the position of the next one in `Rooms`. -/
def cancelReservationLoop (Rooms : List Room) (roomNo : Int) : List Room → Nat → Outcome
  | [], _ => { Rooms := Rooms, stdout := "", err := some errNotFound }
  | room :: rest, i =>
    if room.RoomNumber = roomNo then
      if !room.checkReserved then
        { Rooms := Rooms, stdout := "", err := some errNotReserved }
      else
        let Rooms1 := storeAt Room.cancelRoom i Rooms
        let _vacant := checkVacantRooms Rooms1
        { Rooms := Rooms1, stdout := canceledLine room.RoomNumber, err := none }
    else
      cancelReservationLoop Rooms roomNo rest (i + 1)

/-- The function `cancelReservation` (`hotel.go` lines 115-131). -/
def cancelReservation (roomNo : Int) (Rooms : List Room) : Outcome :=
  cancelReservationLoop Rooms roomNo Rooms 0

/-- The line printed by `viewRoomDetails` for a reserved room. -/
def reservedByLine (number : Int) (guest : String) : String :=
  "\nRoom " ++ fmtInt number ++ " is reserved by " ++ guest

/-- The line printed by `viewRoomDetails` for a room that is not reserved. -/
def availableLine (number : Int) : String :=
  "\nRoom " ++ fmtInt number ++ " is available.\n"

/-- The `range` loop of `viewRoomDetails` (`hotel.go` lines 136-147). -/
def viewRoomDetailsLoop (Rooms : List Room) (roomNo : Int) : List Room → Outcome
  | [] => { Rooms := Rooms, stdout := "", err := some errNotFound }
  | room :: rest =>
    if room.RoomNumber = roomNo then
      if room.checkReserved then
        { Rooms := Rooms, stdout := reservedByLine room.RoomNumber room.GuestName, err := none }
      else
        { Rooms := Rooms, stdout := availableLine room.RoomNumber, err := none }
    else
      viewRoomDetailsLoop Rooms roomNo rest

/-- The function `viewRoomDetails` (`hotel.go` lines 134-148). -/
def viewRoomDetails (roomNo : Int) (Rooms : List Room) : Outcome :=
  viewRoomDetailsLoop Rooms roomNo Rooms

/-- One call of the menu-facing interface. -/
inductive Op where
  | reserve (name : String)
  | cancel (roomNo : Int)
  | view (roomNo : Int)
  | scan
  deriving DecidableEq, Repr

/-- Run one call on the pool. -/
def step : Op → List Room → Option Outcome
  | Op.reserve name, pool => reserveRooms name pool
  | Op.cancel roomNo, pool => some (cancelReservation roomNo pool)
  | Op.view roomNo, pool => some (viewRoomDetails roomNo pool)
  | Op.scan, pool =>
    let _vacant := checkVacantRooms pool
    some { Rooms := pool, stdout := "", err := none }

/-- Run a sequence of calls one after the other; the result is the final pool
and the outcome of every call, in order. -/
def runOps : List Op → List Room → Option (List Room × List Outcome)
  | [], pool => some (pool, [])
  | op :: ops, pool =>
    match step op pool with
    | none => none
    | some o =>
      match runOps ops o.Rooms with
      | none => none
      | some (final, os) => some (final, o :: os)

/-- The pool in which the leading rooms have been booked, one per name, in
order, and the remaining rooms are untouched. -/
def bookFirst : List String → List Room → List Room
  | name :: names, r :: rs => Room.bookRoom name r :: bookFirst names rs
  | _, rs => rs

/-! ### The read-only paths with the mutex made explicit -/

/-- A `Room` struct together with the state of its embedded `sync.Mutex`. -/
structure LockedRoom where
  locked : Bool
  room : Room
  deriving DecidableEq, Repr

/-- The call `r.Lock()`: it returns only if the mutex is free; on a held mutex a
sequential caller never returns, which is `none`. -/
def LockedRoom.Lock (c : LockedRoom) : Option LockedRoom :=
  if c.locked then none else some { c with locked := true }

/-- The call `r.Unlock()`: unlocking a free mutex is a fatal error, which is `none`. -/
def LockedRoom.Unlock (c : LockedRoom) : Option LockedRoom :=
  if c.locked then some { c with locked := false } else none

/-- The method `checkReserved` with its `Lock` and deferred `Unlock`
(`hotel.go` lines 41-46): the flag read and the struct after the call. -/
def LockedRoom.checkReserved (c : LockedRoom) : Option (Bool × LockedRoom) :=
  match c.Lock with
  | none => none
  | some c1 =>
    let result := c1.room.Reserved
    match c1.Unlock with
    | none => none
    | some c2 => some (result, c2)

/-- The loop of `checkVacantRooms` (`hotel.go` lines 78-82) threading the
structs: the rooms as the loop leaves them, and the pointers collected. -/
def checkVacantRoomsLockedLoop :
    List LockedRoom → Nat → List Nat → Option (List LockedRoom × List Nat)
  | [], _, vacantRooms => some ([], vacantRooms)
  | room :: rest, i, vacantRooms =>
    match room.checkReserved with
    | none => none
    | some (reserved, room1) =>
      match checkVacantRoomsLockedLoop rest (i + 1)
          (if !reserved then vacantRooms ++ [i] else vacantRooms) with
      | none => none
      | some (rest1, result) => some (room1 :: rest1, result)

/-- The function `checkVacantRooms` (`hotel.go` lines 76-85) on rooms with their mutex. -/
def checkVacantRoomsLocked (Rooms : List LockedRoom) : Option (List LockedRoom × List Nat) :=
  checkVacantRoomsLockedLoop Rooms 0 []

/-- The function `viewRoomDetails` (`hotel.go` lines 134-148) on rooms with their
mutex: the rooms after the call, the text printed, the error returned. -/
def viewRoomDetailsLocked (roomNo : Int) :
    List LockedRoom → Option (List LockedRoom × String × Option String)
  | [] => some ([], "", some errNotFound)
  | room :: rest =>
    if room.room.RoomNumber = roomNo then
      match room.checkReserved with
      | none => none
      | some (reserved, room1) =>
        if reserved then
          some (room1 :: rest, reservedByLine room1.room.RoomNumber room1.room.GuestName, none)
        else
          some (room1 :: rest, availableLine room1.room.RoomNumber, none)
    else
      match viewRoomDetailsLocked roomNo rest with
      | none => none
      | some (rest1, out, err) => some (room :: rest1, out, err)

/-- What the `select` of `checkVacantRoomsPeriodically` receives. -/
inductive Signal where
  | tick
  | stop
  deriving DecidableEq, Repr

/-- The function `checkVacantRoomsPeriodically` (`hotel.go` lines 88-97) run on
the signals it receives, in order: a tick runs the scan and drops its result,
the stop signal returns. -/
def checkVacantRoomsPeriodically : List Signal → List LockedRoom → Option (List LockedRoom)
  | [], Rooms => some Rooms
  | Signal.stop :: _, Rooms => some Rooms
  | Signal.tick :: rest, Rooms =>
    match checkVacantRoomsLocked Rooms with
    | none => none
    | some (Rooms1, _) => checkVacantRoomsPeriodically rest Rooms1

/-! ### Concurrent calls of `reserveRooms` -/

/-- How far one goroutine running `reserveRooms name` has got: not begun; past
the scan of line 101, holding its slice `vacantRooms`; or returned. -/
inductive Call where
  | start (name : String)
  | scanned (name : String) (vacantRooms : List Nat)
  | returned (err : Option String)
  deriving DecidableEq, Repr

/-- One step of a call on the shared pool: the scan (`hotel.go` line 101), then
the rest of the body (lines 103-111), which looks at the call's own slice only
and books through its first pointer. -/
def Call.advance : Call → List Room → Call × List Room
  | Call.start name, Rooms => (Call.scanned name (checkVacantRooms Rooms), Rooms)
  | Call.scanned _ [], Rooms => (Call.returned (some errNoRooms), Rooms)
  | Call.scanned name (room :: _), Rooms =>
    (Call.returned none, storeAt (Room.bookRoom name) room Rooms)
  | Call.returned err, Rooms => (Call.returned err, Rooms)

/-- The shared pool and the calls in flight. -/
structure Concurrent where
  Rooms : List Room
  calls : List Call
  deriving DecidableEq, Repr

/-- The scheduler lets call `i` take its next step; a call that has returned, or
an index that names no call, changes nothing. -/
def Concurrent.advance (i : Nat) (s : Concurrent) : Concurrent :=
  match s.calls[i]? with
  | none => s
  | some c => { Rooms := (c.advance s.Rooms).2, calls := s.calls.set i (c.advance s.Rooms).1 }

/-- Run a schedule: the calls step in the order the schedule names them. -/
def runSchedule : List Nat → Concurrent → Concurrent
  | [], s => s
  | i :: rest, s => runSchedule rest (s.advance i)

/-- One call of `reserveRooms` per name, none of them begun. -/
def launch (names : List String) (Rooms : List Room) : Concurrent :=
  { Rooms := Rooms, calls := names.map Call.start }

/-- The number of calls that returned `nil`. -/
def succeeded (s : Concurrent) : Nat :=
  s.calls.countP (fun c => decide (c = Call.returned none))

/-- The number of calls that returned the no-rooms-available error. -/
def failed (s : Concurrent) : Nat :=
  s.calls.countP (fun c => decide (c = Call.returned (some errNoRooms)))

/-- The schedule without interleaving: calls `k`, `k + 1`, ... (`m` of them) run
one at a time, each taking both its steps before the next begins. -/
def serialSchedule : Nat → Nat → List Nat
  | _, 0 => []
  | k, m + 1 => k :: k :: serialSchedule (k + 1) m

/-- What holds of every call in flight over the initial pool `Rooms0`: a slice
held by a call points only at rooms that were vacant initially, and a returned
error is `nil` or the no-rooms-available error. -/
def Call.sound (Rooms0 : List Room) : Call → Prop
  | Call.start _ => True
  | Call.scanned _ vacantRooms =>
    ∀ p ∈ vacantRooms, ∃ r, Rooms0[p]? = some r ∧ r.Reserved = false
  | Call.returned err => err = none ∨ err = some errNoRooms

/-! ## Auxiliary facts about the loops -/

theorem storeAt_length (f : Room → Room) (p : Nat) (rs : List Room) :
    (storeAt f p rs).length = rs.length := by
  induction rs generalizing p with
  | nil => cases p <;> rfl
  | cons r rs ih =>
    cases p with
    | zero => rfl
    | succ p => simp [storeAt, ih]

theorem storeAt_append (f : Room → Room) (pre suf : List Room) (r : Room) :
    storeAt f pre.length (pre ++ r :: suf) = pre ++ f r :: suf := by
  induction pre with
  | nil => rfl
  | cons x pre ih => simp [storeAt, ih]

theorem storeAt_map_RoomNumber (f : Room → Room) (hf : ∀ r, (f r).RoomNumber = r.RoomNumber)
    (p : Nat) (rs : List Room) :
    (storeAt f p rs).map Room.RoomNumber = rs.map Room.RoomNumber := by
  induction rs generalizing p with
  | nil => cases p <;> rfl
  | cons r rs ih =>
    cases p with
    | zero => simp [storeAt, hf]
    | succ p => simp [storeAt, ih]

theorem getElem?_append_length (pre suf : List Room) (r : Room) :
    (pre ++ r :: suf)[pre.length]? = some r := by
  induction pre with
  | nil => simp
  | cons x pre ih => simpa using ih

/-- The scan loop in closed form: the positions, counted from `i`, of the rooms
that are not reserved are appended in order. -/
theorem checkVacantRoomsLoop_eq (rest : List Room) (i : Nat) (acc : List Nat) :
    checkVacantRoomsLoop rest i acc =
      acc ++ ((rest.enumFrom i).filter (fun x => !x.2.Reserved)).map Prod.fst := by
  induction rest generalizing i acc with
  | nil => simp [checkVacantRoomsLoop]
  | cons r rest ih =>
    cases h : r.Reserved <;>
      simp [checkVacantRoomsLoop, Room.checkReserved, h, ih, List.filter_cons]

theorem checkVacantRooms_eq (pool : List Room) :
    checkVacantRooms pool =
      ((pool.enumFrom 0).filter (fun x => !x.2.Reserved)).map Prod.fst := by
  simp [checkVacantRooms, checkVacantRoomsLoop_eq]

theorem checkVacantRoomsLoop_reserved (rest : List Room) (i : Nat) (acc : List Nat)
    (h : ∀ r ∈ rest, r.Reserved = true) : checkVacantRoomsLoop rest i acc = acc := by
  induction rest generalizing i with
  | nil => rfl
  | cons r rest ih =>
    have hr : r.Reserved = true := h r (List.mem_cons_self _ _)
    simp only [checkVacantRoomsLoop, Room.checkReserved, hr]
    exact ih (i + 1) (fun x hx => h x (List.mem_cons_of_mem _ hx))

theorem checkVacantRoomsLoop_split (pre suf : List Room) (r : Room) (i : Nat) (acc : List Nat)
    (hpre : ∀ x ∈ pre, x.Reserved = true) (hr : r.Reserved = false) :
    checkVacantRoomsLoop (pre ++ r :: suf) i acc =
      checkVacantRoomsLoop suf (i + pre.length + 1) (acc ++ [i + pre.length]) := by
  induction pre generalizing i with
  | nil => simp [checkVacantRoomsLoop, Room.checkReserved, hr]
  | cons x pre ih =>
    have hx : x.Reserved = true := hpre x (List.mem_cons_self _ _)
    have := ih (i + 1) (fun y hy => hpre y (List.mem_cons_of_mem _ hy))
    have e : i + 1 + pre.length = i + (pre.length + 1) := by omega
    rw [e] at this
    show checkVacantRoomsLoop (x :: (pre ++ r :: suf)) i acc = _
    simp only [checkVacantRoomsLoop, Room.checkReserved, hx, List.length_cons]
    simpa using this

theorem checkVacantRooms_reserved (pool : List Room) (h : ∀ r ∈ pool, r.Reserved = true) :
    checkVacantRooms pool = [] :=
  checkVacantRoomsLoop_reserved pool 0 [] h

theorem checkVacantRooms_split (pre suf : List Room) (r : Room)
    (hpre : ∀ x ∈ pre, x.Reserved = true) (hr : r.Reserved = false) :
    ∃ more, checkVacantRooms (pre ++ r :: suf) = pre.length :: more := by
  refine ⟨((suf.enumFrom (pre.length + 1)).filter (fun x => !x.2.Reserved)).map Prod.fst, ?_⟩
  unfold checkVacantRooms
  rw [checkVacantRoomsLoop_split pre suf r 0 [] hpre hr, checkVacantRoomsLoop_eq]
  simp

/-- A list either has no element satisfying `p`, or splits at the first one. -/
theorem first_split (p : Room → Bool) (l : List Room) :
    (∀ x ∈ l, p x = false) ∨
      ∃ pre r suf, l = pre ++ r :: suf ∧ (∀ x ∈ pre, p x = false) ∧ p r = true := by
  induction l with
  | nil => left; simp
  | cons a l ih =>
    cases ha : p a with
    | true => exact Or.inr ⟨[], a, l, rfl, by simp, ha⟩
    | false =>
      rcases ih with h | ⟨pre, r, suf, rfl, hpre, hr⟩
      · left
        intro x hx
        rcases List.mem_cons.1 hx with rfl | hx
        · exact ha
        · exact h x hx
      · right
        refine ⟨a :: pre, r, suf, rfl, ?_, hr⟩
        intro x hx
        rcases List.mem_cons.1 hx with rfl | hx
        · exact ha
        · exact hpre x hx

/-! ## The operations in closed form -/

theorem reserveRooms_full (name : String) (pool : List Room)
    (h : ∀ r ∈ pool, r.Reserved = true) :
    reserveRooms name pool = some { Rooms := pool, stdout := "", err := some errNoRooms } := by
  simp [reserveRooms, checkVacantRooms_reserved pool h]

theorem reserveRooms_split (name : String) (pre suf : List Room) (r : Room)
    (hpre : ∀ x ∈ pre, x.Reserved = true) (hr : r.Reserved = false) :
    reserveRooms name (pre ++ r :: suf) =
      some { Rooms := pre ++ r.bookRoom name :: suf,
             stdout := reservedLine r.RoomNumber name, err := none } := by
  obtain ⟨more, hmore⟩ := checkVacantRooms_split pre suf r hpre hr
  unfold reserveRooms
  simp only [hmore, List.length_cons, Nat.add_one_ne_zero, if_false, List.getElem?_cons_zero,
    storeAt_append, getElem?_append_length]
  rfl

theorem cancelReservationLoop_none (pool : List Room) (roomNo : Int) (rest : List Room) (i : Nat)
    (h : ∀ x ∈ rest, x.RoomNumber ≠ roomNo) :
    cancelReservationLoop pool roomNo rest i =
      { Rooms := pool, stdout := "", err := some errNotFound } := by
  induction rest generalizing i with
  | nil => rfl
  | cons x rest ih =>
    have hx : x.RoomNumber ≠ roomNo := h x (List.mem_cons_self _ _)
    simp only [cancelReservationLoop, hx, if_false]
    exact ih (i + 1) (fun y hy => h y (List.mem_cons_of_mem _ hy))

theorem cancelReservationLoop_split (pool : List Room) (roomNo : Int) (pre suf : List Room)
    (r : Room) (i : Nat) (hpre : ∀ x ∈ pre, x.RoomNumber ≠ roomNo) (hr : r.RoomNumber = roomNo) :
    cancelReservationLoop pool roomNo (pre ++ r :: suf) i =
      if r.Reserved = true then
        { Rooms := storeAt Room.cancelRoom (i + pre.length) pool,
          stdout := canceledLine r.RoomNumber, err := none }
      else { Rooms := pool, stdout := "", err := some errNotReserved } := by
  induction pre generalizing i with
  | nil =>
    cases hres : r.Reserved <;>
      simp [cancelReservationLoop, hr, Room.checkReserved, hres]
  | cons x pre ih =>
    have hx : x.RoomNumber ≠ roomNo := hpre x (List.mem_cons_self _ _)
    have := ih (i + 1) (fun y hy => hpre y (List.mem_cons_of_mem _ hy))
    have e : i + 1 + pre.length = i + (pre.length + 1) := by omega
    rw [e] at this
    show cancelReservationLoop pool roomNo (x :: (pre ++ r :: suf)) i = _
    simp only [cancelReservationLoop, hx, if_false, List.length_cons]
    exact this

theorem cancelReservation_none (roomNo : Int) (pool : List Room)
    (h : ∀ x ∈ pool, x.RoomNumber ≠ roomNo) :
    cancelReservation roomNo pool = { Rooms := pool, stdout := "", err := some errNotFound } :=
  cancelReservationLoop_none pool roomNo pool 0 h

theorem cancelReservation_split (roomNo : Int) (pre suf : List Room) (r : Room)
    (hpre : ∀ x ∈ pre, x.RoomNumber ≠ roomNo) (hr : r.RoomNumber = roomNo) :
    cancelReservation roomNo (pre ++ r :: suf) =
      if r.Reserved = true then
        { Rooms := pre ++ r.cancelRoom :: suf, stdout := canceledLine r.RoomNumber, err := none }
      else { Rooms := pre ++ r :: suf, stdout := "", err := some errNotReserved } := by
  unfold cancelReservation
  rw [cancelReservationLoop_split (pre ++ r :: suf) roomNo pre suf r 0 hpre hr]
  simp [storeAt_append]

theorem viewRoomDetailsLoop_none (pool : List Room) (roomNo : Int) (rest : List Room)
    (h : ∀ x ∈ rest, x.RoomNumber ≠ roomNo) :
    viewRoomDetailsLoop pool roomNo rest =
      { Rooms := pool, stdout := "", err := some errNotFound } := by
  induction rest with
  | nil => rfl
  | cons x rest ih =>
    have hx : x.RoomNumber ≠ roomNo := h x (List.mem_cons_self _ _)
    simp only [viewRoomDetailsLoop, hx, if_false]
    exact ih (fun y hy => h y (List.mem_cons_of_mem _ hy))

theorem viewRoomDetailsLoop_split (pool : List Room) (roomNo : Int) (pre suf : List Room)
    (r : Room) (hpre : ∀ x ∈ pre, x.RoomNumber ≠ roomNo) (hr : r.RoomNumber = roomNo) :
    viewRoomDetailsLoop pool roomNo (pre ++ r :: suf) =
      if r.Reserved = true then
        { Rooms := pool, stdout := reservedByLine r.RoomNumber r.GuestName, err := none }
      else { Rooms := pool, stdout := availableLine r.RoomNumber, err := none } := by
  induction pre with
  | nil => simp [viewRoomDetailsLoop, hr, Room.checkReserved]
  | cons x pre ih =>
    have hx : x.RoomNumber ≠ roomNo := hpre x (List.mem_cons_self _ _)
    have := ih (fun y hy => hpre y (List.mem_cons_of_mem _ hy))
    show viewRoomDetailsLoop pool roomNo (x :: (pre ++ r :: suf)) = _
    simp only [viewRoomDetailsLoop, hx, if_false]
    exact this

theorem viewRoomDetails_none (roomNo : Int) (pool : List Room)
    (h : ∀ x ∈ pool, x.RoomNumber ≠ roomNo) :
    viewRoomDetails roomNo pool = { Rooms := pool, stdout := "", err := some errNotFound } :=
  viewRoomDetailsLoop_none pool roomNo pool h

theorem viewRoomDetails_split (roomNo : Int) (pre suf : List Room) (r : Room)
    (hpre : ∀ x ∈ pre, x.RoomNumber ≠ roomNo) (hr : r.RoomNumber = roomNo) :
    viewRoomDetails roomNo (pre ++ r :: suf) =
      if r.Reserved = true then
        { Rooms := pre ++ r :: suf, stdout := reservedByLine r.RoomNumber r.GuestName,
          err := none }
      else { Rooms := pre ++ r :: suf, stdout := availableLine r.RoomNumber, err := none } :=
  viewRoomDetailsLoop_split (pre ++ r :: suf) roomNo pre suf r hpre hr

/-- Either no room is vacant, or the pool splits at the first vacant room. -/
theorem vacant_split (pool : List Room) :
    (∀ x ∈ pool, x.Reserved = true) ∨
      ∃ pre r suf, pool = pre ++ r :: suf ∧ (∀ x ∈ pre, x.Reserved = true) ∧
        r.Reserved = false := by
  rcases first_split (fun x => !x.Reserved) pool with h | ⟨pre, r, suf, e, hpre, hr⟩
  · left
    intro x hx
    simpa using h x hx
  · right
    refine ⟨pre, r, suf, e, ?_, by simpa using hr⟩
    intro x hx
    simpa using hpre x hx

/-- Either no room carries the number, or the pool splits at the first that does. -/
theorem number_split (roomNo : Int) (pool : List Room) :
    (∀ x ∈ pool, x.RoomNumber ≠ roomNo) ∨
      ∃ pre r suf, pool = pre ++ r :: suf ∧ (∀ x ∈ pre, x.RoomNumber ≠ roomNo) ∧
        r.RoomNumber = roomNo := by
  rcases first_split (fun x => decide (x.RoomNumber = roomNo)) pool with
    h | ⟨pre, r, suf, e, hpre, hr⟩
  · left
    intro x hx
    simpa using h x hx
  · right
    refine ⟨pre, r, suf, e, ?_, by simpa using hr⟩
    intro x hx
    simpa using hpre x hx

/-! ## Reachable pools -/

/-- Every call returns: no call of the interface panics. -/
theorem step_returns (op : Op) (pool : List Room) : ∃ o, step op pool = some o := by
  cases op with
  | reserve name =>
    rcases vacant_split pool with h | ⟨pre, r, suf, rfl, hpre, hr⟩
    · exact ⟨_, reserveRooms_full name pool h⟩
    · exact ⟨_, reserveRooms_split name pre suf r hpre hr⟩
  | cancel roomNo => exact ⟨_, rfl⟩
  | view roomNo => exact ⟨_, rfl⟩
  | scan => exact ⟨_, rfl⟩

/-- A property of single rooms that holds of vacant rooms, of rooms booked by
the calls in question, and of the pool before a call, holds after the call. -/
theorem step_preserves (P : Room → Prop) (op : Op) (pool : List Room) (o : Outcome)
    (hvacant : ∀ r, P (Room.cancelRoom r))
    (hbook : ∀ name r, op = Op.reserve name → P (Room.bookRoom name r))
    (hpool : ∀ r ∈ pool, P r) (hstep : step op pool = some o) : ∀ r ∈ o.Rooms, P r := by
  cases op with
  | reserve name =>
    rcases vacant_split pool with h | ⟨pre, r, suf, rfl, hpre, hr⟩
    · have := reserveRooms_full name pool h
      simp only [step, this, Option.some.injEq] at hstep
      subst hstep
      exact hpool
    · have := reserveRooms_split name pre suf r hpre hr
      simp only [step, this, Option.some.injEq] at hstep
      subst hstep
      intro x hx
      simp only [List.mem_append, List.mem_cons] at hx
      rcases hx with hx | rfl | hx
      · exact hpool x (by simp [hx])
      · exact hbook name r rfl
      · exact hpool x (by simp [hx])
  | cancel roomNo =>
    simp only [step, Option.some.injEq] at hstep
    subst hstep
    rcases number_split roomNo pool with h | ⟨pre, r, suf, rfl, hpre, hr⟩
    · rw [cancelReservation_none roomNo pool h]
      exact hpool
    · rw [cancelReservation_split roomNo pre suf r hpre hr]
      split
      · intro x hx
        simp only [List.mem_append, List.mem_cons] at hx
        rcases hx with hx | rfl | hx
        · exact hpool x (by simp [hx])
        · exact hvacant r
        · exact hpool x (by simp [hx])
      · exact hpool
  | view roomNo =>
    simp only [step, Option.some.injEq] at hstep
    subst hstep
    rcases number_split roomNo pool with h | ⟨pre, r, suf, rfl, hpre, hr⟩
    · rw [viewRoomDetails_none roomNo pool h]
      exact hpool
    · rw [viewRoomDetails_split roomNo pre suf r hpre hr]
      split <;> exact hpool
  | scan =>
    simp only [step, Option.some.injEq] at hstep
    subst hstep
    exact hpool

/-- The property of `step_preserves` along a whole run, which never panics. -/
theorem runOps_preserves (P : Room → Prop) (ops : List Op) (pool : List Room)
    (hvacant : ∀ r, P (Room.cancelRoom r))
    (hbook : ∀ name r, Op.reserve name ∈ ops → P (Room.bookRoom name r))
    (hpool : ∀ r ∈ pool, P r) :
    ∃ final os, runOps ops pool = some (final, os) ∧ ∀ r ∈ final, P r := by
  induction ops generalizing pool with
  | nil => exact ⟨pool, [], rfl, hpool⟩
  | cons op ops ih =>
    obtain ⟨o, ho⟩ := step_returns op pool
    have hP : ∀ r ∈ o.Rooms, P r :=
      step_preserves P op pool o hvacant
        (fun name r e => hbook name r (by simp [e])) hpool ho
    obtain ⟨final, os, hrun, hfinal⟩ :=
      ih o.Rooms (fun name r hm => hbook name r (List.mem_cons_of_mem _ hm)) hP
    exact ⟨final, o :: os, by simp [runOps, ho, hrun], hfinal⟩

/-- A call leaves the room numbers, position by position, as they were. -/
theorem step_numbers (op : Op) (pool : List Room) (o : Outcome) (hstep : step op pool = some o) :
    o.Rooms.map Room.RoomNumber = pool.map Room.RoomNumber := by
  cases op with
  | reserve name =>
    rcases vacant_split pool with h | ⟨pre, r, suf, rfl, hpre, hr⟩
    · have := reserveRooms_full name pool h
      simp only [step, this, Option.some.injEq] at hstep
      subst hstep
      rfl
    · have := reserveRooms_split name pre suf r hpre hr
      simp only [step, this, Option.some.injEq] at hstep
      subst hstep
      simp [Room.bookRoom]
  | cancel roomNo =>
    simp only [step, Option.some.injEq] at hstep
    subst hstep
    rcases number_split roomNo pool with h | ⟨pre, r, suf, rfl, hpre, hr⟩
    · rw [cancelReservation_none roomNo pool h]
    · rw [cancelReservation_split roomNo pre suf r hpre hr]
      split <;> simp [Room.cancelRoom]
  | view roomNo =>
    simp only [step, Option.some.injEq] at hstep
    subst hstep
    rcases number_split roomNo pool with h | ⟨pre, r, suf, rfl, hpre, hr⟩
    · rw [viewRoomDetails_none roomNo pool h]
    · rw [viewRoomDetails_split roomNo pre suf r hpre hr]
      split <;> rfl
  | scan =>
    simp only [step, Option.some.injEq] at hstep
    subst hstep
    rfl

/-- A whole run returns and leaves the room numbers as they were. -/
theorem runOps_numbers (ops : List Op) (pool : List Room) :
    ∃ final os, runOps ops pool = some (final, os) ∧
      final.map Room.RoomNumber = pool.map Room.RoomNumber := by
  induction ops generalizing pool with
  | nil => exact ⟨pool, [], rfl, rfl⟩
  | cons op ops ih =>
    obtain ⟨o, ho⟩ := step_returns op pool
    obtain ⟨final, os, hrun, hnum⟩ := ih o.Rooms
    exact ⟨final, o :: os, by simp [runOps, ho, hrun],
      hnum.trans (step_numbers op pool o ho)⟩

theorem find?_number_split (roomNo : Int) (pre suf : List Room) (r : Room)
    (hpre : ∀ x ∈ pre, x.RoomNumber ≠ roomNo) (hr : r.RoomNumber = roomNo) :
    (pre ++ r :: suf).find? (fun x => decide (x.RoomNumber = roomNo)) = some r := by
  rw [List.find?_eq_some]
  exact ⟨by simpa using hr, pre, suf, rfl, fun a ha => by simpa using hpre a ha⟩

theorem find?_number_none (roomNo : Int) (pool : List Room)
    (h : ∀ x ∈ pool, x.RoomNumber ≠ roomNo) :
    pool.find? (fun x => decide (x.RoomNumber = roomNo)) = none := by
  rw [List.find?_eq_none]
  intro x hx
  simpa using h x hx

/-! ## C1 -/

/-- C1, as stated, fails: from the pool built by `NewRoom` the single call
`reserveRooms("")` reaches a pool whose first room has `Reserved = true` and an
empty `GuestName`. -/
theorem label_invariant_counterexample :
    runOps [Op.reserve ""] ([101, 102].map NewRoom) =
        some ([{ RoomNumber := 101, Reserved := true, GuestName := "" }, NewRoom 102],
          [{ Rooms := [{ RoomNumber := 101, Reserved := true, GuestName := "" }, NewRoom 102],
             stdout := "\nRoom 101 successfully reserved for guest ", err := none }]) ∧
      ¬ (∀ (nums : List Int) (ops : List Op) (final : List Room) (os : List Outcome),
          runOps ops (nums.map NewRoom) = some (final, os) →
            ∀ r ∈ final, (r.GuestName ≠ "" ↔ r.Reserved = true)) := by
  have hrun : runOps [Op.reserve ""] ([101, 102].map NewRoom) =
      some ([{ RoomNumber := 101, Reserved := true, GuestName := "" }, NewRoom 102],
        [{ Rooms := [{ RoomNumber := 101, Reserved := true, GuestName := "" }, NewRoom 102],
           stdout := "\nRoom 101 successfully reserved for guest ", err := none }]) := by
    decide
  refine ⟨hrun, fun h => ?_⟩
  have h1 := h [101, 102] [Op.reserve ""] _ _ hrun
    { RoomNumber := 101, Reserved := true, GuestName := "" } (by simp)
  simp at h1

/-- C1, amended: in every pool reached from a pool built by `NewRoom` by a
finite sequence of calls in which every `reserveRooms` name is non-empty (the
run itself always returns), every room has a non-empty `GuestName` if and only
if `Reserved` is true. -/
theorem reachable_guestName_iff_reserved (nums : List Int) (ops : List Op)
    (hnames : ∀ name, Op.reserve name ∈ ops → name ≠ "") :
    ∃ final os, runOps ops (nums.map NewRoom) = some (final, os) ∧
      ∀ r ∈ final, (r.GuestName ≠ "" ↔ r.Reserved = true) := by
  apply runOps_preserves (fun r => r.GuestName ≠ "" ↔ r.Reserved = true)
  · intro r
    simp [Room.cancelRoom]
  · intro name r hm
    simpa [Room.bookRoom] using hnames name hm
  · intro r hr
    obtain ⟨n, -, rfl⟩ := List.mem_map.1 hr
    simp [NewRoom]

/-- Witness for C1 (amended): one reservation and one cancellation on a pool of two rooms. -/
theorem reachable_guestName_iff_reserved_witness :
    (∀ name, Op.reserve name ∈ [Op.reserve "john", Op.cancel 102, Op.reserve "doe"] →
        name ≠ "") ∧
      ∃ final os,
        runOps [Op.reserve "john", Op.cancel 102, Op.reserve "doe"] ([101, 102].map NewRoom) =
          some (final, os) ∧
        ∀ r ∈ final, (r.GuestName ≠ "" ↔ r.Reserved = true) :=
  have h : ∀ name, Op.reserve name ∈ [Op.reserve "john", Op.cancel 102, Op.reserve "doe"] →
      name ≠ "" := by
    intro name hm
    simp at hm
    rcases hm with rfl | rfl <;> decide
  ⟨h, reachable_guestName_iff_reserved [101, 102] _ h⟩

/-! ## C2 -/

/-- On a pool with pairwise distinct room numbers a successful `reserveRooms x`
books the first vacant room, and the first room found under its number
afterwards is that room, reserved for `x`. -/
theorem reserveRooms_unique_numbers (pool : List Room) (x : String) (o : Outcome)
    (hnd : (pool.map Room.RoomNumber).Nodup)
    (hcall : reserveRooms x pool = some o) (hok : o.err = none) :
    ∃ pre r suf, pool = pre ++ r :: suf ∧ (∀ y ∈ pre, y.Reserved = true) ∧
      r.Reserved = false ∧
      (checkVacantRooms pool)[0]? = some pre.length ∧
      o.Rooms = pre ++ { RoomNumber := r.RoomNumber, Reserved := true, GuestName := x } :: suf ∧
      o.Rooms.find? (fun y => decide (y.RoomNumber = r.RoomNumber)) =
        some { RoomNumber := r.RoomNumber, Reserved := true, GuestName := x } ∧
      viewRoomDetails r.RoomNumber o.Rooms =
        { Rooms := o.Rooms, stdout := reservedByLine r.RoomNumber x, err := none } := by
  rcases vacant_split pool with h | ⟨pre, r, suf, rfl, hpre, hr⟩
  · rw [reserveRooms_full x pool h] at hcall
    simp only [Option.some.injEq] at hcall
    subst hcall
    simp at hok
  · rw [reserveRooms_split x pre suf r hpre hr] at hcall
    simp only [Option.some.injEq] at hcall
    subst hcall
    have hne : ∀ y ∈ pre, y.RoomNumber ≠ r.RoomNumber := by
      intro y hy heq
      simp only [List.map_append, List.map_cons] at hnd
      exact (List.nodup_append.1 hnd).2.2 (List.mem_map.2 ⟨y, hy, heq⟩) (by simp)
    refine ⟨pre, r, suf, rfl, hpre, hr, ?_, rfl, ?_, ?_⟩
    · obtain ⟨more, hmore⟩ := checkVacantRooms_split pre suf r hpre hr
      simp [hmore]
    · exact find?_number_split r.RoomNumber pre suf (Room.bookRoom x r) hne rfl
    · show viewRoomDetails r.RoomNumber (pre ++ Room.bookRoom x r :: suf) = _
      rw [viewRoomDetails_split r.RoomNumber pre suf (Room.bookRoom x r) hne rfl]
      simp [Room.bookRoom]

/-- C2: if `reserveRooms x` succeeds then the room it selected is the first room
in sequence order that was unreserved before the call (the pool splits as
`pre ++ r :: suf` with all of `pre` reserved and `r` not, and the scan's first
pointer is the position of `r`), the call books exactly `r`, and in the
resulting pool inspecting the number of `r` finds that room with
`Reserved = true` and `GuestName = x` and prints it as reserved by `x`.  This
holds on every pool with pairwise distinct room numbers, and so on every pool
the program can be in: every run from the package's `Rooms` returns a pool with
distinct numbers, on which it holds. -/
theorem reserve_then_view (pool : List Room) (ops : List Op) (x : String) :
    (∀ (o : Outcome), (pool.map Room.RoomNumber).Nodup → reserveRooms x pool = some o →
      o.err = none →
      ∃ pre r suf, pool = pre ++ r :: suf ∧ (∀ y ∈ pre, y.Reserved = true) ∧
        r.Reserved = false ∧
        (checkVacantRooms pool)[0]? = some pre.length ∧
        o.Rooms =
          pre ++ { RoomNumber := r.RoomNumber, Reserved := true, GuestName := x } :: suf ∧
        o.Rooms.find? (fun y => decide (y.RoomNumber = r.RoomNumber)) =
          some { RoomNumber := r.RoomNumber, Reserved := true, GuestName := x } ∧
        viewRoomDetails r.RoomNumber o.Rooms =
          { Rooms := o.Rooms, stdout := reservedByLine r.RoomNumber x, err := none }) ∧
    (∃ final os, runOps ops Rooms = some (final, os) ∧
      (final.map Room.RoomNumber).Nodup ∧
      ∀ (o : Outcome), reserveRooms x final = some o → o.err = none →
        ∃ pre r suf, final = pre ++ r :: suf ∧ (∀ y ∈ pre, y.Reserved = true) ∧
          r.Reserved = false ∧
          (checkVacantRooms final)[0]? = some pre.length ∧
          o.Rooms =
            pre ++ { RoomNumber := r.RoomNumber, Reserved := true, GuestName := x } :: suf ∧
          o.Rooms.find? (fun y => decide (y.RoomNumber = r.RoomNumber)) =
            some { RoomNumber := r.RoomNumber, Reserved := true, GuestName := x } ∧
          viewRoomDetails r.RoomNumber o.Rooms =
            { Rooms := o.Rooms, stdout := reservedByLine r.RoomNumber x, err := none }) := by
  refine ⟨fun o hnd hcall hok => reserveRooms_unique_numbers pool x o hnd hcall hok, ?_⟩
  obtain ⟨final, os, hrun, hnum⟩ := runOps_numbers ops Rooms
  have hnd : (final.map Room.RoomNumber).Nodup := by
    rw [hnum]
    decide
  exact ⟨final, os, hrun, hnd, fun o hcall hok =>
    reserveRooms_unique_numbers final x o hnd hcall hok⟩

/-- Witness for C2: the second reservation on a pool whose first room is taken. -/
theorem reserve_then_view_witness :
    (([{ RoomNumber := 101, Reserved := true, GuestName := "john" }, NewRoom 102,
        NewRoom 103] : List Room).map Room.RoomNumber).Nodup ∧
    reserveRooms "doe"
        [{ RoomNumber := 101, Reserved := true, GuestName := "john" }, NewRoom 102,
          NewRoom 103] =
      some { Rooms := [{ RoomNumber := 101, Reserved := true, GuestName := "john" },
               { RoomNumber := 102, Reserved := true, GuestName := "doe" }, NewRoom 103],
             stdout := "\nRoom 102 successfully reserved for guest doe", err := none } ∧
    ∃ pre r suf,
      [{ RoomNumber := 101, Reserved := true, GuestName := "john" }, NewRoom 102, NewRoom 103] =
        pre ++ r :: suf ∧ (∀ y ∈ pre, y.Reserved = true) ∧
      r.Reserved = false ∧
      (checkVacantRooms
        [{ RoomNumber := 101, Reserved := true, GuestName := "john" }, NewRoom 102,
          NewRoom 103])[0]? = some pre.length ∧
      [{ RoomNumber := 101, Reserved := true, GuestName := "john" },
          { RoomNumber := 102, Reserved := true, GuestName := "doe" }, NewRoom 103] =
        pre ++ { RoomNumber := r.RoomNumber, Reserved := true, GuestName := "doe" } :: suf ∧
      List.find? (fun y => decide (y.RoomNumber = r.RoomNumber))
          [{ RoomNumber := 101, Reserved := true, GuestName := "john" },
            { RoomNumber := 102, Reserved := true, GuestName := "doe" }, NewRoom 103] =
        some { RoomNumber := r.RoomNumber, Reserved := true, GuestName := "doe" } ∧
      viewRoomDetails r.RoomNumber
          [{ RoomNumber := 101, Reserved := true, GuestName := "john" },
            { RoomNumber := 102, Reserved := true, GuestName := "doe" }, NewRoom 103] =
        { Rooms := [{ RoomNumber := 101, Reserved := true, GuestName := "john" },
            { RoomNumber := 102, Reserved := true, GuestName := "doe" }, NewRoom 103],
          stdout := reservedByLine r.RoomNumber "doe", err := none } :=
  ⟨by decide, by decide,
    (reserve_then_view
      [{ RoomNumber := 101, Reserved := true, GuestName := "john" }, NewRoom 102, NewRoom 103]
      [] "doe").1
      { Rooms := [{ RoomNumber := 101, Reserved := true, GuestName := "john" },
          { RoomNumber := 102, Reserved := true, GuestName := "doe" }, NewRoom 103],
        stdout := "\nRoom 102 successfully reserved for guest doe", err := none }
      (by decide) (by decide) rfl⟩

/-! ## C3 -/

theorem bookFirst_nil (pool : List Room) : bookFirst [] pool = pool := by
  cases pool <;> rfl

theorem bookFirst_reserved (names : List String) (pool : List Room)
    (hlen : names.length = pool.length) : ∀ r ∈ bookFirst names pool, r.Reserved = true := by
  induction names generalizing pool with
  | nil =>
    cases pool with
    | nil => simp [bookFirst]
    | cons r rs => simp at hlen
  | cons n ns ih =>
    cases pool with
    | nil => simp at hlen
    | cons r rs =>
      intro x hx
      simp only [bookFirst, List.mem_cons] at hx
      rcases hx with rfl | hx
      · rfl
      · exact ih rs (by simpa using hlen) x hx

theorem bookFirst_getElem? (names : List String) (pool : List Room) (k : Nat) (name : String)
    (r : Room) (hn : names[k]? = some name) (hr : pool[k]? = some r) :
    (bookFirst names pool)[k]? = some (Room.bookRoom name r) := by
  induction names generalizing pool k with
  | nil => simp at hn
  | cons n ns ih =>
    cases pool with
    | nil => simp at hr
    | cons x rs =>
      cases k with
      | zero =>
        simp only [List.getElem?_cons_zero, Option.some.injEq] at hn hr
        subst hn hr
        simp [bookFirst]
      | succ k =>
        simp only [List.getElem?_cons_succ] at hn hr
        simpa [bookFirst] using ih rs k hn hr

/-- After `names.length` bookings of an all-vacant pool that has a further room,
the pool splits at that room: everything before it is reserved, and one more
name books exactly it. -/
theorem bookFirst_split (names : List String) (pool : List Room)
    (hvac : ∀ r ∈ pool, r.Reserved = false) (hlt : names.length < pool.length) :
    ∃ pre r suf, bookFirst names pool = pre ++ r :: suf ∧ pre.length = names.length ∧
      (∀ y ∈ pre, y.Reserved = true) ∧ pool[names.length]? = some r ∧ r.Reserved = false ∧
      ∀ name, bookFirst (names ++ [name]) pool = pre ++ Room.bookRoom name r :: suf := by
  induction names generalizing pool with
  | nil =>
    cases pool with
    | nil => simp at hlt
    | cons r rs =>
      exact ⟨[], r, rs, rfl, rfl, by simp, by simp, hvac r (by simp), fun name => by
        cases rs <;> rfl⟩
  | cons n ns ih =>
    cases pool with
    | nil => simp at hlt
    | cons x rs =>
      obtain ⟨pre, r, suf, e, hl, hpre, hget, hr, hnext⟩ :=
        ih rs (fun y hy => hvac y (List.mem_cons_of_mem _ hy)) (by simpa using hlt)
      refine ⟨Room.bookRoom n x :: pre, r, suf, by simp [bookFirst, e], by simp [hl], ?_,
        by simpa using hget, hr, fun name => by simp [bookFirst, hnext name]⟩
      intro y hy
      rcases List.mem_cons.1 hy with rfl | hy
      · rfl
      · exact hpre y hy

/-- Booking a run of names on `done ++ rest`, with `done` reserved and `rest`
vacant and long enough, succeeds call after call. -/
theorem runOps_reserve_vacant (names : List String) (done rest : List Room)
    (hdone : ∀ r ∈ done, r.Reserved = true) (hrest : ∀ r ∈ rest, r.Reserved = false)
    (hlen : names.length ≤ rest.length) :
    ∃ os, runOps (names.map Op.reserve) (done ++ rest) = some (done ++ bookFirst names rest, os) ∧
      os.length = names.length ∧ ∀ o ∈ os, o.err = none := by
  induction names generalizing done rest with
  | nil => exact ⟨[], by simp [runOps, bookFirst_nil], rfl, by simp⟩
  | cons n ns ih =>
    cases rest with
    | nil => simp at hlen
    | cons r rs =>
      have hr : r.Reserved = false := hrest r (by simp)
      have hcall := reserveRooms_split n done rs r hdone hr
      obtain ⟨os, hrun, hl, herr⟩ := ih (done ++ [Room.bookRoom n r]) rs
        (by
          intro y hy
          rcases List.mem_append.1 hy with hy | hy
          · exact hdone y hy
          · simp only [List.mem_singleton] at hy
            subst hy
            rfl)
        (fun y hy => hrest y (List.mem_cons_of_mem _ hy)) (by simpa using hlen)
      simp only [List.append_assoc, List.singleton_append] at hrun
      refine ⟨{ Rooms := done ++ Room.bookRoom n r :: rs,
                stdout := reservedLine r.RoomNumber n, err := none } :: os, ?_, by simp [hl], ?_⟩
      · simp [runOps, step, hcall, hrun, bookFirst]
      · intro o ho
        rcases List.mem_cons.1 ho with rfl | ho
        · rfl
        · exact herr o ho

/-- C3: on a pool of `N` rooms that are all vacant, `N` sequential `reserveRooms`
calls with any names all succeed and leave every room reserved; before the
call number `k` (counted from 0) the first `k` rooms are booked and the rest
untouched, that call's scan has position `k` first, and the call books exactly
room `k` for its name, which is what the room still holds at the end; one more
call fails with the no-rooms-available error and changes nothing. -/
theorem reserve_all_then_fail (pool : List Room) (names : List String) (extra : String)
    (hvac : ∀ r ∈ pool, r.Reserved = false) (hlen : names.length = pool.length) :
    (∃ os, runOps (names.map Op.reserve) pool = some (bookFirst names pool, os) ∧
      os.length = pool.length ∧ ∀ o ∈ os, o.err = none) ∧
    (∀ k, k < pool.length → ∃ name r osk, names[k]? = some name ∧ pool[k]? = some r ∧
      runOps ((names.take k).map Op.reserve) pool =
        some (bookFirst (names.take k) pool, osk) ∧
      (checkVacantRooms (bookFirst (names.take k) pool))[0]? = some k ∧
      reserveRooms name (bookFirst (names.take k) pool) =
        some { Rooms := bookFirst (names.take (k + 1)) pool,
               stdout := reservedLine r.RoomNumber name, err := none } ∧
      bookFirst (names.take (k + 1)) pool =
        storeAt (Room.bookRoom name) k (bookFirst (names.take k) pool) ∧
      (bookFirst names pool)[k]? =
        some { RoomNumber := r.RoomNumber, Reserved := true, GuestName := name }) ∧
    (∀ r ∈ bookFirst names pool, r.Reserved = true) ∧
    reserveRooms extra (bookFirst names pool) =
      some { Rooms := bookFirst names pool, stdout := "", err := some errNoRooms } := by
  have hfull := bookFirst_reserved names pool hlen
  refine ⟨?_, ?_, hfull, reserveRooms_full extra _ hfull⟩
  · obtain ⟨os, hrun, hl, herr⟩ :=
      runOps_reserve_vacant names [] pool (by simp) hvac (by omega)
    exact ⟨os, by simpa using hrun, by omega, herr⟩
  · intro k hk
    have hkn : k < names.length := by omega
    have htake : (names.take k).length = k := by simp; omega
    obtain ⟨pre, r, suf, e, hl, hpre, hget, hr, hnext⟩ :=
      bookFirst_split (names.take k) pool hvac (by omega)
    rw [htake] at hget hl
    obtain ⟨osk, hrun, -, -⟩ :=
      runOps_reserve_vacant (names.take k) [] pool (by simp) hvac (by omega)
    have hname : names[k]? = some names[k] := List.getElem?_eq_getElem hkn
    have hsucc : names.take (k + 1) = names.take k ++ [names[k]] := by
      rw [List.take_succ, hname]
      rfl
    refine ⟨names[k], r, osk, hname, hget, by simpa using hrun, ?_, ?_, ?_, ?_⟩
    · obtain ⟨more, hmore⟩ := checkVacantRooms_split pre suf r hpre hr
      rw [e, hmore, hl]
      simp
    · rw [hsucc, hnext, e]
      exact reserveRooms_split _ pre suf r hpre hr
    · rw [hsucc, hnext, e]
      subst hl
      rw [storeAt_append]
    · exact bookFirst_getElem? names pool k _ r hname hget

/-- Witness for C3: two vacant rooms, two names, and a third call. -/
theorem reserve_all_then_fail_witness :
    (∃ os, runOps (["john", "doe"].map Op.reserve) [NewRoom 101, NewRoom 102] =
        some (bookFirst ["john", "doe"] [NewRoom 101, NewRoom 102], os) ∧
      os.length = [NewRoom 101, NewRoom 102].length ∧ ∀ o ∈ os, o.err = none) ∧
    (∀ k, k < [NewRoom 101, NewRoom 102].length → ∃ name r osk,
      ["john", "doe"][k]? = some name ∧ [NewRoom 101, NewRoom 102][k]? = some r ∧
      runOps ((["john", "doe"].take k).map Op.reserve) [NewRoom 101, NewRoom 102] =
        some (bookFirst (["john", "doe"].take k) [NewRoom 101, NewRoom 102], osk) ∧
      (checkVacantRooms (bookFirst (["john", "doe"].take k) [NewRoom 101, NewRoom 102]))[0]? =
        some k ∧
      reserveRooms name (bookFirst (["john", "doe"].take k) [NewRoom 101, NewRoom 102]) =
        some { Rooms := bookFirst (["john", "doe"].take (k + 1)) [NewRoom 101, NewRoom 102],
               stdout := reservedLine r.RoomNumber name, err := none } ∧
      bookFirst (["john", "doe"].take (k + 1)) [NewRoom 101, NewRoom 102] =
        storeAt (Room.bookRoom name) k
          (bookFirst (["john", "doe"].take k) [NewRoom 101, NewRoom 102]) ∧
      (bookFirst ["john", "doe"] [NewRoom 101, NewRoom 102])[k]? =
        some { RoomNumber := r.RoomNumber, Reserved := true, GuestName := name }) ∧
    (∀ r ∈ bookFirst ["john", "doe"] [NewRoom 101, NewRoom 102], r.Reserved = true) ∧
    reserveRooms "alex" (bookFirst ["john", "doe"] [NewRoom 101, NewRoom 102]) =
      some { Rooms := bookFirst ["john", "doe"] [NewRoom 101, NewRoom 102], stdout := "",
             err := some errNoRooms } :=
  reserve_all_then_fail [NewRoom 101, NewRoom 102] ["john", "doe"] "alex"
    (by decide) (by decide)

/-! ## C4 -/

/-- C4: `cancelReservation id` returns the not-found error exactly when no room
has `RoomNumber = id`, the not-reserved error exactly when the first room with
that number exists and is not reserved, and `nil` exactly when the first room
with that number exists and is reserved; these are the only three results. -/
theorem cancelReservation_errors (pool : List Room) (id : Int) :
    ((cancelReservation id pool).err = some errNotFound ↔ ∀ r ∈ pool, r.RoomNumber ≠ id) ∧
    ((cancelReservation id pool).err = some errNotReserved ↔
      ∃ r, pool.find? (fun x => decide (x.RoomNumber = id)) = some r ∧ r.Reserved = false) ∧
    ((cancelReservation id pool).err = none ↔
      ∃ r, pool.find? (fun x => decide (x.RoomNumber = id)) = some r ∧ r.Reserved = true) ∧
    ((cancelReservation id pool).err = some errNotFound ∨
      (cancelReservation id pool).err = some errNotReserved ∨
      (cancelReservation id pool).err = none) := by
  have hne : errNotFound ≠ errNotReserved := by decide
  rcases number_split id pool with h | ⟨pre, r, suf, rfl, hpre, hr⟩
  · rw [cancelReservation_none id pool h, find?_number_none id pool h]
    refine ⟨⟨fun _ => h, fun _ => rfl⟩, ?_, ?_, Or.inl rfl⟩
    · simp [hne]
    · simp
  · rw [cancelReservation_split id pre suf r hpre hr, find?_number_split id pre suf r hpre hr]
    have hex : ¬ ∀ x ∈ pre ++ r :: suf, x.RoomNumber ≠ id := fun hall => hall r (by simp) hr
    cases hres : r.Reserved
    · refine ⟨⟨fun he => ?_, fun hall => absurd hall hex⟩, ?_, ?_, Or.inr (Or.inl ?_)⟩
      · simp [hne.symm] at he
      · simp [hres]
      · simp [hres]
      · simp
    · refine ⟨⟨fun he => ?_, fun hall => absurd hall hex⟩, ?_, ?_, Or.inr (Or.inr ?_)⟩
      · simp at he
      · simp [hres]
      · simp [hres]
      · simp

/-! ## C5 -/

/-- C5: `reserveRooms name` always returns; it fails with the
no-rooms-available error exactly when every room is reserved before the call,
which is exactly when the vacant scan is empty, and it succeeds whenever at
least one room is unreserved. -/
theorem reserveRooms_fails_iff_full (pool : List Room) (name : String) :
    ∃ o, reserveRooms name pool = some o ∧
      (o.err = some errNoRooms ↔ ∀ r ∈ pool, r.Reserved = true) ∧
      (o.err = some errNoRooms ↔ checkVacantRooms pool = []) ∧
      ((∃ r ∈ pool, r.Reserved = false) → o.err = none) ∧
      (o.err = none ∨ o.err = some errNoRooms) := by
  rcases vacant_split pool with h | ⟨pre, r, suf, rfl, hpre, hr⟩
  · refine ⟨_, reserveRooms_full name pool h, by simpa using h,
      by simp [checkVacantRooms_reserved pool h], ?_, Or.inr rfl⟩
    rintro ⟨r, hr, hfalse⟩
    rw [h r hr] at hfalse
    cases hfalse
  · obtain ⟨more, hmore⟩ := checkVacantRooms_split pre suf r hpre hr
    refine ⟨_, reserveRooms_split name pre suf r hpre hr, ?_, by simp [hmore],
      fun _ => rfl, Or.inl rfl⟩
    constructor
    · intro h
      cases h
    · intro hall
      have := hall r (by simp)
      rw [hr] at this
      cases this

/-! ## C6 -/

/-- C6: in a pool with pairwise distinct room numbers, cancelling the number of
a reserved room `r` succeeds and replaces exactly `r` by the vacant room of the
same number (`Reserved = false`, `GuestName = ""`); inspecting the number then
reports the room available, and cancelling it again fails with the not-reserved
error and changes nothing. -/
theorem cancel_reserved_room (pool : List Room) (id : Int) (r : Room)
    (hnd : (pool.map Room.RoomNumber).Nodup) (hmem : r ∈ pool) (hid : r.RoomNumber = id)
    (hres : r.Reserved = true) :
    ∃ pre suf, pool = pre ++ r :: suf ∧
      cancelReservation id pool =
        { Rooms := pre ++ { RoomNumber := id, Reserved := false, GuestName := "" } :: suf,
          stdout := canceledLine id, err := none } ∧
      viewRoomDetails id
          (pre ++ { RoomNumber := id, Reserved := false, GuestName := "" } :: suf) =
        { Rooms := pre ++ { RoomNumber := id, Reserved := false, GuestName := "" } :: suf,
          stdout := availableLine id, err := none } ∧
      cancelReservation id
          (pre ++ { RoomNumber := id, Reserved := false, GuestName := "" } :: suf) =
        { Rooms := pre ++ { RoomNumber := id, Reserved := false, GuestName := "" } :: suf,
          stdout := "", err := some errNotReserved } := by
  obtain ⟨pre, suf, rfl⟩ := List.append_of_mem hmem
  have hpre : ∀ x ∈ pre, x.RoomNumber ≠ id := by
    intro x hx heq
    simp only [List.map_append, List.map_cons] at hnd
    exact (List.nodup_append.1 hnd).2.2 (List.mem_map.2 ⟨x, hx, heq⟩) (by simp [hid])
  refine ⟨pre, suf, rfl, ?_, ?_, ?_⟩
  · rw [cancelReservation_split id pre suf r hpre hid]
    simp [hres, Room.cancelRoom, hid]
  · rw [viewRoomDetails_split id pre suf _ hpre rfl]
    simp
  · rw [cancelReservation_split id pre suf _ hpre rfl]
    simp

/-- Witness for C6: room 102 of a three-room pool is reserved and gets cancelled. -/
theorem cancel_reserved_room_witness :
    ∃ pre suf,
      [NewRoom 101, { RoomNumber := 102, Reserved := true, GuestName := "doe" }, NewRoom 103] =
        pre ++ { RoomNumber := 102, Reserved := true, GuestName := "doe" } :: suf ∧
      cancelReservation 102
          [NewRoom 101, { RoomNumber := 102, Reserved := true, GuestName := "doe" },
            NewRoom 103] =
        { Rooms := pre ++ { RoomNumber := 102, Reserved := false, GuestName := "" } :: suf,
          stdout := canceledLine 102, err := none } ∧
      viewRoomDetails 102
          (pre ++ { RoomNumber := 102, Reserved := false, GuestName := "" } :: suf) =
        { Rooms := pre ++ { RoomNumber := 102, Reserved := false, GuestName := "" } :: suf,
          stdout := availableLine 102, err := none } ∧
      cancelReservation 102
          (pre ++ { RoomNumber := 102, Reserved := false, GuestName := "" } :: suf) =
        { Rooms := pre ++ { RoomNumber := 102, Reserved := false, GuestName := "" } :: suf,
          stdout := "", err := some errNotReserved } :=
  cancel_reserved_room
    [NewRoom 101, { RoomNumber := 102, Reserved := true, GuestName := "doe" }, NewRoom 103]
    102 { RoomNumber := 102, Reserved := true, GuestName := "doe" }
    (by decide) (by decide) rfl rfl

/-! ## C7 -/

theorem getElem?_of_mem_enumFrom_zero (pool : List Room) (x : Nat × Room)
    (hx : x ∈ pool.enumFrom 0) : pool[x.1]? = some x.2 :=
  List.mem_enum_iff_getElem?.1 hx

/-- C7: `checkVacantRooms` returns exactly the sub-sequence of the rooms whose
`Reserved` flag is false, in the original order: dereferencing the returned
pointers gives the room list filtered by "not Reserved"; a position is returned
if and only if it holds an unreserved room; and the returned positions are
strictly increasing, hence each occurs once. -/
theorem checkVacantRooms_eq_filter (pool : List Room) :
    (checkVacantRooms pool).map (fun p => pool[p]?) =
        (pool.filter (fun r => !r.Reserved)).map some ∧
      (∀ p, p ∈ checkVacantRooms pool ↔ ∃ r, pool[p]? = some r ∧ r.Reserved = false) ∧
      (checkVacantRooms pool).Pairwise (fun a b => a < b) ∧
      (checkVacantRooms pool).Nodup := by
  have hsorted : (checkVacantRooms pool).Pairwise (fun a b => a < b) := by
    rw [checkVacantRooms_eq]
    have hsub : (((pool.enumFrom 0).filter (fun x => !x.2.Reserved)).map Prod.fst).Sublist
        ((pool.enumFrom 0).map Prod.fst) := (List.filter_sublist _).map _
    rw [List.enumFrom_map_fst] at hsub
    exact (List.pairwise_lt_range' 0 pool.length).sublist hsub
  refine ⟨?_, ?_, hsorted, hsorted.imp (fun h => Nat.ne_of_lt h)⟩
  · rw [checkVacantRooms_eq, List.map_map]
    have hcongr : ((pool.enumFrom 0).filter (fun x => !x.2.Reserved)).map
          ((fun p => pool[p]?) ∘ Prod.fst) =
        ((pool.enumFrom 0).filter (fun x => !x.2.Reserved)).map (some ∘ Prod.snd) := by
      apply List.map_congr_left
      intro x hx
      exact getElem?_of_mem_enumFrom_zero pool x (List.mem_filter.1 hx).1
    rw [hcongr, ← List.map_map]
    congr 1
    have hfm : List.filter (fun r : Room => !r.Reserved) ((pool.enumFrom 0).map Prod.snd) =
        ((pool.enumFrom 0).filter ((fun r : Room => !r.Reserved) ∘ Prod.snd)).map Prod.snd :=
      List.filter_map Prod.snd (pool.enumFrom 0)
    rw [List.enumFrom_map_snd] at hfm
    exact hfm.symm
  · intro p
    rw [checkVacantRooms_eq]
    constructor
    · intro hp
      obtain ⟨x, hx, rfl⟩ := List.mem_map.1 hp
      obtain ⟨hmem, hq⟩ := List.mem_filter.1 hx
      exact ⟨x.2, getElem?_of_mem_enumFrom_zero pool x hmem, by simpa using hq⟩
    · rintro ⟨r, hget, hr⟩
      refine List.mem_map.2 ⟨(p, r), List.mem_filter.2 ⟨?_, by simp [hr]⟩, rfl⟩
      exact List.mem_enum_iff_getElem?.2 hget

/-! ## C8 -/

/-- C8: the reference scenario on the freshly constructed pool 101..105.  The
five reservations succeed and print rooms 101, 102, 103, 104, 105 in that
order, leaving all five rooms reserved by "john", "doe", "alex", "cael",
"ryle"; the sixth fails with the no-rooms-available error; `cancelReservation
101` succeeds; inspecting 101 reports it available; and the scan of the final
pool returns exactly one pointer, to the room numbered 101. -/
theorem reference_scenario :
    (runOps [Op.reserve "john", Op.reserve "doe", Op.reserve "alex", Op.reserve "cael",
        Op.reserve "ryle"] Rooms).map Prod.fst =
      some [{ RoomNumber := 101, Reserved := true, GuestName := "john" },
        { RoomNumber := 102, Reserved := true, GuestName := "doe" },
        { RoomNumber := 103, Reserved := true, GuestName := "alex" },
        { RoomNumber := 104, Reserved := true, GuestName := "cael" },
        { RoomNumber := 105, Reserved := true, GuestName := "ryle" }] ∧
    (runOps [Op.reserve "john", Op.reserve "doe", Op.reserve "alex", Op.reserve "cael",
        Op.reserve "ryle", Op.reserve "atlas", Op.cancel 101, Op.view 101] Rooms).map
        (fun x => x.2.map (fun o => (o.err, o.stdout))) =
      some [(none, "\nRoom 101 successfully reserved for guest john"),
        (none, "\nRoom 102 successfully reserved for guest doe"),
        (none, "\nRoom 103 successfully reserved for guest alex"),
        (none, "\nRoom 104 successfully reserved for guest cael"),
        (none, "\nRoom 105 successfully reserved for guest ryle"),
        (some "no rooms available for reservation", ""),
        (none, "\nReservation for room 101 has been canceled.\n"),
        (none, "\nRoom 101 is available.\n")] ∧
    (runOps [Op.reserve "john", Op.reserve "doe", Op.reserve "alex", Op.reserve "cael",
        Op.reserve "ryle", Op.reserve "atlas", Op.cancel 101, Op.view 101] Rooms).map Prod.fst =
      some [{ RoomNumber := 101, Reserved := false, GuestName := "" },
        { RoomNumber := 102, Reserved := true, GuestName := "doe" },
        { RoomNumber := 103, Reserved := true, GuestName := "alex" },
        { RoomNumber := 104, Reserved := true, GuestName := "cael" },
        { RoomNumber := 105, Reserved := true, GuestName := "ryle" }] ∧
    checkVacantRooms [{ RoomNumber := 101, Reserved := false, GuestName := "" },
        { RoomNumber := 102, Reserved := true, GuestName := "doe" },
        { RoomNumber := 103, Reserved := true, GuestName := "alex" },
        { RoomNumber := 104, Reserved := true, GuestName := "cael" },
        { RoomNumber := 105, Reserved := true, GuestName := "ryle" }] = [0] ∧
    ([{ RoomNumber := 101, Reserved := false, GuestName := "" },
        { RoomNumber := 102, Reserved := true, GuestName := "doe" },
        { RoomNumber := 103, Reserved := true, GuestName := "alex" },
        { RoomNumber := 104, Reserved := true, GuestName := "cael" },
        { RoomNumber := 105, Reserved := true, GuestName := "ryle" }] : List Room)[0]? =
      some { RoomNumber := 101, Reserved := false, GuestName := "" } ∧
    errNoRooms = "no rooms available for reservation" := by
  decide

/-! ## C9 -/

/-- C9: in the pool built by applying `NewRoom` to each of `N` numbers, the scan
returns all `N` positions in order, the room at position `k` is the vacant room
with the `k`-th number (`Reserved = false`, `GuestName = ""`), and inspecting
any of the numbers reports the room available. -/
theorem fresh_pool_all_vacant (nums : List Int) :
    checkVacantRooms (nums.map NewRoom) = List.range nums.length ∧
      (nums.map NewRoom).length = nums.length ∧
      ∀ (k : Nat) (n : Int), nums[k]? = some n →
        (nums.map NewRoom)[k]? =
          some ({ RoomNumber := n, Reserved := false, GuestName := "" } : Room) ∧
        viewRoomDetails n (nums.map NewRoom) =
          { Rooms := nums.map NewRoom, stdout := availableLine n, err := none } := by
  have hvac : ∀ r ∈ nums.map NewRoom, r.Reserved = false := by
    intro r hr
    obtain ⟨n, -, rfl⟩ := List.mem_map.1 hr
    rfl
  refine ⟨?_, by simp, ?_⟩
  · rw [checkVacantRooms_eq, List.filter_eq_self.2, List.enumFrom_map_fst,
      List.range_eq_range', List.length_map]
    intro x hx
    simp [hvac x.2 (List.snd_mem_of_mem_enumFrom hx)]
  · intro k n hk
    have hget : (nums.map NewRoom)[k]? = some (NewRoom n) := by simp [hk]
    refine ⟨hget, ?_⟩
    have hmem : NewRoom n ∈ nums.map NewRoom := List.getElem?_mem hget
    rcases number_split n (nums.map NewRoom) with h | ⟨pre, r, suf, e, hpre, hr⟩
    · exact absurd rfl (h _ hmem)
    · have hrv : r.Reserved = false := hvac r (by rw [e]; simp)
      rw [e, viewRoomDetails_split n pre suf r hpre hr]
      simp [hrv, hr]

/-! ## C10 -/

/-- C10: `viewRoomDetails id` never changes the pool; it fails with the not-found
error exactly when no room has `RoomNumber = id`; otherwise it returns `nil` and
prints the first room with that number as it stands: "reserved by" its
`GuestName` when its `Reserved` flag is true, "available" when it is false. -/
theorem viewRoomDetails_reports (pool : List Room) (id : Int) :
    (viewRoomDetails id pool).Rooms = pool ∧
    ((viewRoomDetails id pool).err = some errNotFound ↔ ∀ r ∈ pool, r.RoomNumber ≠ id) ∧
    ((viewRoomDetails id pool).err = some errNotFound ∨ (viewRoomDetails id pool).err = none) ∧
    (∀ r, pool.find? (fun x => decide (x.RoomNumber = id)) = some r →
      r.RoomNumber = id ∧
      viewRoomDetails id pool =
        { Rooms := pool,
          stdout := if r.Reserved = true then reservedByLine r.RoomNumber r.GuestName
                    else availableLine r.RoomNumber,
          err := none }) ∧
    ((∃ r ∈ pool, r.RoomNumber = id) →
      ∃ r, pool.find? (fun x => decide (x.RoomNumber = id)) = some r) := by
  rcases number_split id pool with h | ⟨pre, r, suf, rfl, hpre, hr⟩
  · rw [viewRoomDetails_none id pool h, find?_number_none id pool h]
    refine ⟨rfl, ⟨fun _ => h, fun _ => rfl⟩, Or.inl rfl, ?_, ?_⟩
    · intro r hr
      cases hr
    · rintro ⟨r, hr, hid⟩
      exact absurd hid (h r hr)
  · rw [viewRoomDetails_split id pre suf r hpre hr, find?_number_split id pre suf r hpre hr]
    have hex : ¬ ∀ x ∈ pre ++ r :: suf, x.RoomNumber ≠ id := fun hall => hall r (by simp) hr
    refine ⟨by split <;> rfl, ⟨fun he => ?_, fun hall => absurd hall hex⟩,
      Or.inr (by split <;> rfl), ?_, fun _ => ⟨r, rfl⟩⟩
    · split at he <;> simp at he
    · intro r1 hr1
      simp only [Option.some.injEq] at hr1
      subst hr1
      refine ⟨hr, ?_⟩
      split <;> rfl

/-! ## C11 -/

/-- C11: every call (`reserveRooms`, `cancelReservation`, `viewRoomDetails`, the
scan) on every pool, reachable or not, returns a pool of the same length with
the same `RoomNumber` at every position; consequently every run from the
reference pool ends in a pool whose numbers are 101..105 in order, which are
pairwise distinct. -/
theorem pool_shape_invariant :
    (∀ (op : Op) (pool : List Room), ∃ o, step op pool = some o ∧
      o.Rooms.length = pool.length ∧
      o.Rooms.map Room.RoomNumber = pool.map Room.RoomNumber ∧
      ∀ (k : Nat), (o.Rooms[k]?).map Room.RoomNumber = (pool[k]?).map Room.RoomNumber) ∧
    (∀ (ops : List Op), ∃ final os, runOps ops Rooms = some (final, os) ∧
      final.length = 5 ∧
      final.map Room.RoomNumber = [101, 102, 103, 104, 105] ∧
      (final.map Room.RoomNumber).Nodup) := by
  constructor
  · intro op pool
    obtain ⟨o, ho⟩ := step_returns op pool
    have hnum := step_numbers op pool o ho
    refine ⟨o, ho, ?_, hnum, ?_⟩
    · simpa using congrArg List.length hnum
    · intro k
      have := congrArg (fun l => l[k]?) hnum
      simpa using this
  · intro ops
    obtain ⟨final, os, hrun, hnum⟩ := runOps_numbers ops Rooms
    have hnum1 : final.map Room.RoomNumber = [101, 102, 103, 104, 105] := hnum
    refine ⟨final, os, hrun, ?_, hnum1, ?_⟩
    · simpa using congrArg List.length hnum1
    · rw [hnum1]
      decide

/-! ## C12 -/

/-- C12: `cancelRoom` is idempotent, and the room it leaves is vacant
(`Reserved = false`, `GuestName = ""`) with its `RoomNumber` unchanged. -/
theorem cancelRoom_idempotent (r : Room) :
    Room.cancelRoom (Room.cancelRoom r) = Room.cancelRoom r ∧
      Room.cancelRoom r = { RoomNumber := r.RoomNumber, Reserved := false, GuestName := "" } ∧
      (Room.cancelRoom r).checkReserved = false := by
  exact ⟨rfl, rfl, rfl⟩

/-! ## C13 -/

/-- C13: `bookRoom name` on any room, vacant or reserved by anyone, yields the
room with the same `RoomNumber`, `Reserved = true` and `GuestName = name`; in
particular `bookRoom b` after `bookRoom a` leaves `GuestName = b`. -/
theorem bookRoom_overwrites (r : Room) (name a b : String) :
    Room.bookRoom name r = { RoomNumber := r.RoomNumber, Reserved := true, GuestName := name } ∧
      Room.bookRoom b (Room.bookRoom a r) =
        { RoomNumber := r.RoomNumber, Reserved := true, GuestName := b } ∧
      (Room.bookRoom b (Room.bookRoom a r)).GuestName = b := by
  exact ⟨rfl, rfl, rfl⟩

/-! ## C16 -/

/-- A non-empty scan starts with a valid pointer: a position inside the pool. -/
theorem checkVacantRooms_head (pool : List Room) (h : (checkVacantRooms pool).length ≠ 0) :
    ∃ p r, (checkVacantRooms pool)[0]? = some p ∧ pool[p]? = some r ∧ r.Reserved = false := by
  rcases vacant_split pool with hall | ⟨pre, r, suf, rfl, hpre, hr⟩
  · rw [checkVacantRooms_reserved pool hall] at h
    exact absurd rfl h
  · obtain ⟨more, hmore⟩ := checkVacantRooms_split pre suf r hpre hr
    exact ⟨pre.length, r, by simp [hmore], getElem?_append_length pre suf r, hr⟩

/-- C16: every core operation returns on every pool and every argument, with
`nil` or one of the three errors (`reserveRooms`: only no-rooms-available;
`cancelReservation`: only not-found or not-reserved; `viewRoomDetails`: only
not-found).  The index `vacantRooms[0]` is in range whenever the scan is not
empty, and it is a pointer into the pool.  In particular nothing panics on the
empty pool, an unknown number, the empty name or a fully reserved pool. -/
theorem operations_total :
    (∀ (op : Op) (pool : List Room), ∃ o, step op pool = some o ∧
      (o.err = none ∨ o.err = some errNoRooms ∨ o.err = some errNotReserved ∨
        o.err = some errNotFound)) ∧
    (∀ (name : String) (pool : List Room), ∃ o, reserveRooms name pool = some o ∧
      (o.err = none ∨ o.err = some errNoRooms)) ∧
    (∀ (pool : List Room), (checkVacantRooms pool).length ≠ 0 →
      ∃ p r, (checkVacantRooms pool)[0]? = some p ∧ pool[p]? = some r) ∧
    (∀ (id : Int) (pool : List Room),
      (cancelReservation id pool).err = none ∨
        (cancelReservation id pool).err = some errNotFound ∨
        (cancelReservation id pool).err = some errNotReserved) ∧
    (∀ (id : Int) (pool : List Room),
      (viewRoomDetails id pool).err = none ∨
        (viewRoomDetails id pool).err = some errNotFound) ∧
    (reserveRooms "john" [] = some { Rooms := [], stdout := "", err := some errNoRooms } ∧
      cancelReservation 101 [] = { Rooms := [], stdout := "", err := some errNotFound } ∧
      viewRoomDetails 101 [] = { Rooms := [], stdout := "", err := some errNotFound } ∧
      checkVacantRooms [] = [] ∧
      cancelReservation 10097 Rooms = { Rooms := Rooms, stdout := "", err := some errNotFound } ∧
      viewRoomDetails 10091 Rooms = { Rooms := Rooms, stdout := "", err := some errNotFound } ∧
      (reserveRooms "" Rooms).map Outcome.err = some none ∧
      reserveRooms "atlas" (bookFirst ["john", "doe", "alex", "cael", "ryle"] Rooms) =
        some { Rooms := bookFirst ["john", "doe", "alex", "cael", "ryle"] Rooms, stdout := "",
               err := some errNoRooms }) := by
  have hreserve : ∀ (name : String) (pool : List Room), ∃ o, reserveRooms name pool = some o ∧
      (o.err = none ∨ o.err = some errNoRooms) := by
    intro name pool
    rcases vacant_split pool with h | ⟨pre, r, suf, rfl, hpre, hr⟩
    · exact ⟨_, reserveRooms_full name pool h, Or.inr rfl⟩
    · exact ⟨_, reserveRooms_split name pre suf r hpre hr, Or.inl rfl⟩
  have hcancel : ∀ (id : Int) (pool : List Room),
      (cancelReservation id pool).err = none ∨
        (cancelReservation id pool).err = some errNotFound ∨
        (cancelReservation id pool).err = some errNotReserved := by
    intro id pool
    rcases number_split id pool with h | ⟨pre, r, suf, rfl, hpre, hr⟩
    · rw [cancelReservation_none id pool h]
      exact Or.inr (Or.inl rfl)
    · rw [cancelReservation_split id pre suf r hpre hr]
      split
      · exact Or.inl rfl
      · exact Or.inr (Or.inr rfl)
  have hview : ∀ (id : Int) (pool : List Room),
      (viewRoomDetails id pool).err = none ∨
        (viewRoomDetails id pool).err = some errNotFound := by
    intro id pool
    rcases number_split id pool with h | ⟨pre, r, suf, rfl, hpre, hr⟩
    · rw [viewRoomDetails_none id pool h]
      exact Or.inr rfl
    · rw [viewRoomDetails_split id pre suf r hpre hr]
      split <;> exact Or.inl rfl
  refine ⟨?_, hreserve, ?_, hcancel, hview, by decide⟩
  · intro op pool
    cases op with
    | reserve name =>
      obtain ⟨o, ho, he⟩ := hreserve name pool
      exact ⟨o, ho, by rcases he with he | he <;> simp [he]⟩
    | cancel id =>
      exact ⟨_, rfl, by rcases hcancel id pool with he | he | he <;> simp [he]⟩
    | view id =>
      exact ⟨_, rfl, by rcases hview id pool with he | he <;> simp [he]⟩
    | scan => exact ⟨_, rfl, Or.inl rfl⟩
  · intro pool h
    obtain ⟨p, r, hp, hr, -⟩ := checkVacantRooms_head pool h
    exact ⟨p, r, hp, hr⟩

/-! ## C18 -/

/-- C18: a failed call changes nothing.  `reserveRooms` always returns, and when
it returns an error (which is then the no-rooms-available error) the pool is
the one before the call and nothing was printed; likewise when
`cancelReservation` returns an error (not-found or not-reserved). -/
theorem failed_calls_change_nothing (pool : List Room) :
    (∀ (name : String), ∃ o, reserveRooms name pool = some o ∧
      (o.err ≠ none → o.err = some errNoRooms ∧ o.Rooms = pool ∧ o.stdout = "")) ∧
    (∀ (id : Int), (cancelReservation id pool).err ≠ none →
      ((cancelReservation id pool).err = some errNotFound ∨
        (cancelReservation id pool).err = some errNotReserved) ∧
      (cancelReservation id pool).Rooms = pool ∧ (cancelReservation id pool).stdout = "") := by
  constructor
  · intro name
    rcases vacant_split pool with h | ⟨pre, r, suf, rfl, hpre, hr⟩
    · exact ⟨_, reserveRooms_full name pool h, fun _ => ⟨rfl, rfl, rfl⟩⟩
    · exact ⟨_, reserveRooms_split name pre suf r hpre hr, fun hne => absurd rfl hne⟩
  · intro id
    rcases number_split id pool with h | ⟨pre, r, suf, rfl, hpre, hr⟩
    · rw [cancelReservation_none id pool h]
      exact fun _ => ⟨Or.inl rfl, rfl, rfl⟩
    · rw [cancelReservation_split id pre suf r hpre hr]
      split
      · exact fun hne => absurd rfl hne
      · exact fun _ => ⟨Or.inr rfl, rfl, rfl⟩

/-! ## C19 -/

/-- Two lists that differ only in the element after `pre` agree at every other position. -/
theorem getElem?_append_cons_ne (pre suf : List Room) (a b : Room) (k : Nat)
    (hk : k ≠ pre.length) : (pre ++ a :: suf)[k]? = (pre ++ b :: suf)[k]? := by
  induction pre generalizing k with
  | nil =>
    cases k with
    | zero => exact absurd rfl hk
    | succ k => simp
  | cons x pre ih =>
    cases k with
    | zero => simp
    | succ k =>
      have : k ≠ pre.length := fun e => hk (by simp [e])
      simpa using ih k this

/-- C19: a successful call changes exactly one room.  A successful
`reserveRooms name` splits the pool at its first unreserved room `r` and
replaces `r`, and nothing else, by `r` booked for `name`; a successful
`cancelReservation id` splits the pool at its first room `r` numbered `id` and
replaces `r`, and nothing else, by `r` cancelled.  Every other position holds
the room it held before, and the replaced room does differ from `r`. -/
theorem successful_calls_touch_one_room (pool : List Room) :
    (∀ (name : String) (o : Outcome), reserveRooms name pool = some o → o.err = none →
      ∃ pre r suf, pool = pre ++ r :: suf ∧ (∀ y ∈ pre, y.Reserved = true) ∧
        r.Reserved = false ∧ o.Rooms = pre ++ Room.bookRoom name r :: suf ∧
        Room.bookRoom name r ≠ r ∧
        ∀ (k : Nat), k ≠ pre.length → o.Rooms[k]? = pool[k]?) ∧
    (∀ (id : Int), (cancelReservation id pool).err = none →
      ∃ pre r suf, pool = pre ++ r :: suf ∧ (∀ y ∈ pre, y.RoomNumber ≠ id) ∧
        r.RoomNumber = id ∧ r.Reserved = true ∧
        (cancelReservation id pool).Rooms = pre ++ Room.cancelRoom r :: suf ∧
        Room.cancelRoom r ≠ r ∧
        ∀ (k : Nat), k ≠ pre.length → (cancelReservation id pool).Rooms[k]? = pool[k]?) := by
  constructor
  · intro name o hcall hok
    rcases vacant_split pool with h | ⟨pre, r, suf, rfl, hpre, hr⟩
    · rw [reserveRooms_full name pool h] at hcall
      simp only [Option.some.injEq] at hcall
      subst hcall
      simp at hok
    · rw [reserveRooms_split name pre suf r hpre hr] at hcall
      simp only [Option.some.injEq] at hcall
      subst hcall
      refine ⟨pre, r, suf, rfl, hpre, hr, rfl, ?_, fun k hk =>
        getElem?_append_cons_ne pre suf _ _ k hk⟩
      intro e
      have := congrArg Room.Reserved e
      simp [Room.bookRoom, hr] at this
  · intro id hok
    rcases number_split id pool with h | ⟨pre, r, suf, rfl, hpre, hr⟩
    · rw [cancelReservation_none id pool h] at hok
      simp at hok
    · rw [cancelReservation_split id pre suf r hpre hr] at hok ⊢
      cases hres : r.Reserved
      · simp [hres] at hok
      · refine ⟨pre, r, suf, rfl, hpre, hr, hres, by simp, ?_, fun k hk => by
          simpa using getElem?_append_cons_ne pre suf _ _ k hk⟩
        intro e
        have := congrArg Room.Reserved e
        simp [Room.cancelRoom, hres] at this

/-! ## C15 -/

theorem checkVacantRoomsLoop_length (rest : List Room) (i : Nat) (acc : List Nat) :
    (checkVacantRoomsLoop rest i acc).length =
      acc.length + rest.countP (fun r => !r.Reserved) := by
  induction rest generalizing i acc with
  | nil => simp [checkVacantRoomsLoop]
  | cons r rest ih =>
    cases h : r.Reserved
    · simp only [checkVacantRoomsLoop, Room.checkReserved, h, Bool.not_false, if_true, ih,
        List.length_append, List.length_singleton]
      rw [List.countP_cons_of_pos _ _ (by simp [h])]
      omega
    · simp only [checkVacantRoomsLoop, Room.checkReserved, h, Bool.not_true]
      rw [List.countP_cons_of_neg _ _ (by simp [h])]
      simpa using ih (i + 1) acc

/-- The scan returns as many pointers as there are unreserved rooms. -/
theorem checkVacantRooms_length (pool : List Room) :
    (checkVacantRooms pool).length = pool.countP (fun r => !r.Reserved) := by
  simp [checkVacantRooms, checkVacantRoomsLoop_length]

/-- C15: on every pool, a successful `reserveRooms` leaves a scan with exactly
one room fewer, and a successful `cancelReservation` a scan with exactly one
room more.  On the reference pool the scan has 5 rooms, 4 after one
reservation, and 5 again after cancelling it. -/
theorem scan_count_changes (pool : List Room) :
    (∀ (name : String) (o : Outcome), reserveRooms name pool = some o → o.err = none →
      (checkVacantRooms o.Rooms).length + 1 = (checkVacantRooms pool).length) ∧
    (∀ (id : Int), (cancelReservation id pool).err = none →
      (checkVacantRooms (cancelReservation id pool).Rooms).length =
        (checkVacantRooms pool).length + 1) ∧
    ((checkVacantRooms Rooms).length = 5 ∧
      (reserveRooms "john" Rooms).map (fun o => (o.err, (checkVacantRooms o.Rooms).length)) =
        some (none, 4) ∧
      (runOps [Op.reserve "john", Op.cancel 101] Rooms).map
          (fun x => (x.2.map Outcome.err, (checkVacantRooms x.1).length)) =
        some ([none, none], 5)) := by
  refine ⟨?_, ?_, by decide⟩
  · intro name o hcall hok
    rcases vacant_split pool with h | ⟨pre, r, suf, rfl, hpre, hr⟩
    · rw [reserveRooms_full name pool h] at hcall
      simp only [Option.some.injEq] at hcall
      subst hcall
      simp at hok
    · rw [reserveRooms_split name pre suf r hpre hr] at hcall
      simp only [Option.some.injEq] at hcall
      subst hcall
      simp only [checkVacantRooms_length, List.countP_append]
      rw [List.countP_cons_of_neg _ _ (by simp [Room.bookRoom]),
        List.countP_cons_of_pos _ _ (by simp [hr])]
      omega
  · intro id hok
    rcases number_split id pool with h | ⟨pre, r, suf, rfl, hpre, hr⟩
    · rw [cancelReservation_none id pool h] at hok
      simp at hok
    · rw [cancelReservation_split id pre suf r hpre hr] at hok ⊢
      cases hres : r.Reserved
      · simp [hres] at hok
      · simp only [if_true, checkVacantRooms_length, List.countP_append]
        rw [List.countP_cons_of_pos _ _ (by simp [Room.cancelRoom]),
          List.countP_cons_of_neg _ _ (by simp [hres])]
        omega

/-! ## C20 -/

/-- C20: in every pool reached from a pool built by `NewRoom` on pairwise
distinct numbers (every run returns), if some room is vacant then
`reserveRooms name` succeeds on the first vacant room `r`, and
`cancelReservation` on the number of `r` then succeeds and leaves exactly the
pool that held before the reservation. -/
theorem reserve_then_cancel_round_trip (nums : List Int) (ops : List Op) (name : String)
    (hnd : nums.Nodup) :
    ∃ final os, runOps ops (nums.map NewRoom) = some (final, os) ∧
      ((∃ x ∈ final, x.Reserved = false) →
        ∃ pre r suf o, final = pre ++ r :: suf ∧ (∀ y ∈ pre, y.Reserved = true) ∧
          r.Reserved = false ∧ reserveRooms name final = some o ∧ o.err = none ∧
          o.Rooms = pre ++ { RoomNumber := r.RoomNumber, Reserved := true,
                             GuestName := name } :: suf ∧
          cancelReservation r.RoomNumber o.Rooms =
            { Rooms := final, stdout := canceledLine r.RoomNumber, err := none }) := by
  obtain ⟨final, os, hrun, hnum⟩ := runOps_numbers ops (nums.map NewRoom)
  obtain ⟨final1, os1, hrun1, hlabel⟩ :=
    runOps_preserves (fun r => r.Reserved = false → r.GuestName = "") ops (nums.map NewRoom)
      (fun r _ => rfl) (fun name r _ h => by simp [Room.bookRoom] at h)
      (fun r hr _ => by
        obtain ⟨n, -, rfl⟩ := List.mem_map.1 hr
        rfl)
  rw [hrun] at hrun1
  simp only [Option.some.injEq, Prod.mk.injEq] at hrun1
  obtain ⟨rfl, rfl⟩ := hrun1
  refine ⟨final, os, hrun, ?_⟩
  rintro ⟨x, hx, hxv⟩
  rcases vacant_split final with h | ⟨pre, r, suf, rfl, hpre, hr⟩
  · rw [h x hx] at hxv
    cases hxv
  · have hnodup : ((pre ++ r :: suf).map Room.RoomNumber).Nodup := by
      rw [hnum, List.map_map]
      have hid : Room.RoomNumber ∘ NewRoom = id := rfl
      rw [hid, List.map_id]
      exact hnd
    have hne : ∀ y ∈ pre, y.RoomNumber ≠ r.RoomNumber := by
      intro y hy heq
      simp only [List.map_append, List.map_cons] at hnodup
      exact (List.nodup_append.1 hnodup).2.2 (List.mem_map.2 ⟨y, hy, heq⟩) (by simp)
    have hguest : r.GuestName = "" := hlabel r (by simp) hr
    refine ⟨pre, r, suf, _, rfl, hpre, hr, reserveRooms_split name pre suf r hpre hr, rfl,
      rfl, ?_⟩
    have := cancelReservation_split r.RoomNumber pre suf
      { RoomNumber := r.RoomNumber, Reserved := true, GuestName := name } hne rfl
    simp only [if_true] at this
    show cancelReservation r.RoomNumber
      (pre ++ { RoomNumber := r.RoomNumber, Reserved := true, GuestName := name } :: suf) = _
    rw [this]
    have hback : Room.cancelRoom
        { RoomNumber := r.RoomNumber, Reserved := true, GuestName := name } = r := by
      cases r
      simp_all [Room.cancelRoom]
    rw [hback]

/-- Witness for C20: the reference numbers, a run that books two rooms and
cancels one, then a reservation for "alex" and its cancellation. -/
theorem reserve_then_cancel_round_trip_witness :
    ([101, 102, 103, 104, 105] : List Int).Nodup ∧
      ∃ final os,
        runOps [Op.reserve "john", Op.reserve "doe", Op.cancel 101]
          (([101, 102, 103, 104, 105] : List Int).map NewRoom) = some (final, os) ∧
        ((∃ x ∈ final, x.Reserved = false) →
          ∃ pre r suf o, final = pre ++ r :: suf ∧ (∀ y ∈ pre, y.Reserved = true) ∧
            r.Reserved = false ∧ reserveRooms "alex" final = some o ∧ o.err = none ∧
            o.Rooms = pre ++ { RoomNumber := r.RoomNumber, Reserved := true,
                               GuestName := "alex" } :: suf ∧
            cancelReservation r.RoomNumber o.Rooms =
              { Rooms := final, stdout := canceledLine r.RoomNumber, err := none }) :=
  ⟨by decide,
    reserve_then_cancel_round_trip [101, 102, 103, 104, 105]
      [Op.reserve "john", Op.reserve "doe", Op.cancel 101] "alex" (by decide)⟩

/-! ## C14 -/

theorem LockedRoom.checkReserved_free (c : LockedRoom) (h : c.locked = false) :
    c.checkReserved = some (c.room.Reserved, c) := by
  cases c with
  | mk locked room =>
    simp only at h
    subst h
    rfl

theorem checkVacantRoomsLockedLoop_free (rest : List LockedRoom) (i : Nat) (acc : List Nat)
    (hfree : ∀ c ∈ rest, c.locked = false) :
    checkVacantRoomsLockedLoop rest i acc =
      some (rest, checkVacantRoomsLoop (rest.map LockedRoom.room) i acc) := by
  induction rest generalizing i acc with
  | nil => rfl
  | cons c rest ih =>
    have hc := LockedRoom.checkReserved_free c (hfree c (List.mem_cons_self _ _))
    have hrest : ∀ x ∈ rest, x.locked = false := fun x hx => hfree x (List.mem_cons_of_mem _ hx)
    simp only [checkVacantRoomsLockedLoop, hc, ih _ _ hrest, List.map_cons,
      checkVacantRoomsLoop, Room.checkReserved]
    by_cases hres : (!c.room.Reserved) = true
    · simp only [hres, if_true]
    · simp [hres]

theorem viewRoomDetailsLocked_free (roomNo : Int) (pool : List Room) (rest : List LockedRoom)
    (hfree : ∀ c ∈ rest, c.locked = false) :
    viewRoomDetailsLocked roomNo rest =
      some (rest, (viewRoomDetailsLoop pool roomNo (rest.map LockedRoom.room)).stdout,
        (viewRoomDetailsLoop pool roomNo (rest.map LockedRoom.room)).err) := by
  induction rest with
  | nil => rfl
  | cons c rest ih =>
    have hc := LockedRoom.checkReserved_free c (hfree c (List.mem_cons_self _ _))
    have hrest : ∀ x ∈ rest, x.locked = false := fun x hx => hfree x (List.mem_cons_of_mem _ hx)
    by_cases hnum : c.room.RoomNumber = roomNo
    · cases hres : c.room.Reserved <;>
        simp [viewRoomDetailsLocked, viewRoomDetailsLoop, hnum, hc, hres, Room.checkReserved]
    · simp [viewRoomDetailsLocked, viewRoomDetailsLoop, hnum, ih hrest]

/-- C14: the read-only operations leave the pool as it was.  On rooms whose
mutexes are free, `checkReserved` returns the flag and leaves the struct and
its mutex unchanged; `checkVacantRooms` and `viewRoomDetails id` return what
they return on the plain rooms and leave every struct and mutex unchanged; and
`checkVacantRoomsPeriodically`, whatever ticks it receives, leaves them
unchanged too. -/
theorem read_only_operations (Rooms : List LockedRoom) (id : Int)
    (hfree : ∀ c ∈ Rooms, c.locked = false) :
    (∀ c ∈ Rooms, c.checkReserved = some (c.room.checkReserved, c)) ∧
    checkVacantRoomsLocked Rooms =
      some (Rooms, checkVacantRooms (Rooms.map LockedRoom.room)) ∧
    viewRoomDetailsLocked id Rooms =
      some (Rooms, (viewRoomDetails id (Rooms.map LockedRoom.room)).stdout,
        (viewRoomDetails id (Rooms.map LockedRoom.room)).err) ∧
    (viewRoomDetails id (Rooms.map LockedRoom.room)).Rooms = Rooms.map LockedRoom.room ∧
    (∀ (signals : List Signal), checkVacantRoomsPeriodically signals Rooms = some Rooms) ∧
    (∀ (n : Nat), checkVacantRoomsPeriodically (List.replicate n Signal.tick) Rooms =
      some Rooms) := by
  have hscan : checkVacantRoomsLocked Rooms =
      some (Rooms, checkVacantRooms (Rooms.map LockedRoom.room)) :=
    checkVacantRoomsLockedLoop_free Rooms 0 [] hfree
  have hticks : ∀ (signals : List Signal),
      checkVacantRoomsPeriodically signals Rooms = some Rooms := by
    intro signals
    induction signals with
    | nil => rfl
    | cons sig rest ih =>
      cases sig with
      | tick => simp only [checkVacantRoomsPeriodically, hscan, ih]
      | stop => rfl
  refine ⟨fun c hc => LockedRoom.checkReserved_free c (hfree c hc), hscan,
    viewRoomDetailsLocked_free id _ Rooms hfree, ?_, hticks, fun n => hticks _⟩
  rcases number_split id (Rooms.map LockedRoom.room) with h | ⟨pre, r, suf, e, hpre, hr⟩
  · rw [viewRoomDetails_none id _ h]
  · rw [e, viewRoomDetails_split id pre suf r hpre hr]
    split <;> rfl

/-- Witness for C14: the reference pool with room 101 reserved and all mutexes free. -/
theorem read_only_operations_witness :
    (∀ c ∈ [({ locked := false, room := Room.bookRoom "john" (NewRoom 101) } : LockedRoom),
        { locked := false, room := NewRoom 102 }], c.locked = false) ∧
    checkVacantRoomsLocked
        [{ locked := false, room := Room.bookRoom "john" (NewRoom 101) },
          { locked := false, room := NewRoom 102 }] =
      some ([{ locked := false, room := Room.bookRoom "john" (NewRoom 101) },
          { locked := false, room := NewRoom 102 }], [1]) ∧
    viewRoomDetailsLocked 101
        [{ locked := false, room := Room.bookRoom "john" (NewRoom 101) },
          { locked := false, room := NewRoom 102 }] =
      some ([{ locked := false, room := Room.bookRoom "john" (NewRoom 101) },
          { locked := false, room := NewRoom 102 }], "\nRoom 101 is reserved by john", none) ∧
    checkVacantRoomsPeriodically [Signal.tick, Signal.tick, Signal.stop]
        [{ locked := false, room := Room.bookRoom "john" (NewRoom 101) },
          { locked := false, room := NewRoom 102 }] =
      some [{ locked := false, room := Room.bookRoom "john" (NewRoom 101) },
          { locked := false, room := NewRoom 102 }] :=
  have hfree : ∀ c ∈ [({ locked := false, room := Room.bookRoom "john" (NewRoom 101) } :
      LockedRoom), { locked := false, room := NewRoom 102 }], c.locked = false := by decide
  have h := read_only_operations
    [{ locked := false, room := Room.bookRoom "john" (NewRoom 101) },
      { locked := false, room := NewRoom 102 }] 101 hfree
  ⟨hfree, h.2.1, h.2.2.1, h.2.2.2.2.1 _⟩

/-! ## C17 -/

/-- C17: the code breaks the bound the claim states.  On the reference pool with
101..104 reserved (one vacant room, 105) two concurrent calls whose scans both
run before either books both return `nil`, the second overwriting the guest of
the first: 2 successes and no failure where 1 room was vacant, so the number
of successes is not bounded by the number of vacant rooms. -/
theorem concurrent_reserve_race :
    (checkVacantRooms (bookFirst ["john", "doe", "alex", "cael"] Rooms)).length = 1 ∧
    runSchedule [0, 1, 0, 1] (launch ["a", "b"] (bookFirst ["john", "doe", "alex", "cael"] Rooms)) =
      { Rooms := [{ RoomNumber := 101, Reserved := true, GuestName := "john" },
          { RoomNumber := 102, Reserved := true, GuestName := "doe" },
          { RoomNumber := 103, Reserved := true, GuestName := "alex" },
          { RoomNumber := 104, Reserved := true, GuestName := "cael" },
          { RoomNumber := 105, Reserved := true, GuestName := "b" }],
        calls := [Call.returned none, Call.returned none] } ∧
    succeeded (runSchedule [0, 1, 0, 1]
      (launch ["a", "b"] (bookFirst ["john", "doe", "alex", "cael"] Rooms))) = 2 ∧
    failed (runSchedule [0, 1, 0, 1]
      (launch ["a", "b"] (bookFirst ["john", "doe", "alex", "cael"] Rooms))) = 0 ∧
    ¬ (succeeded (runSchedule [0, 1, 0, 1]
        (launch ["a", "b"] (bookFirst ["john", "doe", "alex", "cael"] Rooms))) ≤
      (checkVacantRooms (bookFirst ["john", "doe", "alex", "cael"] Rooms)).length) := by
  decide

theorem mem_checkVacantRooms (pool : List Room) (p : Nat) (hp : p ∈ checkVacantRooms pool) :
    ∃ r, pool[p]? = some r ∧ r.Reserved = false := by
  rw [checkVacantRooms_eq] at hp
  obtain ⟨x, hx, rfl⟩ := List.mem_map.1 hp
  obtain ⟨hmem, hq⟩ := List.mem_filter.1 hx
  exact ⟨x.2, List.mem_enum_iff_getElem?.1 hmem, by simpa using hq⟩

theorem getElem?_storeAt_ne (f : Room → Room) (p q : Nat) (rs : List Room) (h : q ≠ p) :
    (storeAt f p rs)[q]? = rs[q]? := by
  induction rs generalizing p q with
  | nil => cases p <;> rfl
  | cons r rs ih =>
    cases p with
    | zero =>
      cases q with
      | zero => exact absurd rfl h
      | succ q => simp [storeAt]
    | succ p =>
      cases q with
      | zero => simp [storeAt]
      | succ q =>
        have : q ≠ p := fun e => h (by simp [e])
        simpa [storeAt] using ih p q this

/-- One scheduler step keeps the pool's length, the rooms that were reserved
initially, the number of calls, and the soundness of every call. -/
theorem advance_sound (Rooms0 : List Room) (s : Concurrent) (i : Nat)
    (hlen : s.Rooms.length = Rooms0.length)
    (hkeep : ∀ (p : Nat) (r : Room), Rooms0[p]? = some r → r.Reserved = true →
      s.Rooms[p]? = some r)
    (hcalls : ∀ c ∈ s.calls, Call.sound Rooms0 c) :
    (s.advance i).Rooms.length = Rooms0.length ∧
      (∀ (p : Nat) (r : Room), Rooms0[p]? = some r → r.Reserved = true →
        (s.advance i).Rooms[p]? = some r) ∧
      (∀ c ∈ (s.advance i).calls, Call.sound Rooms0 c) ∧
      (s.advance i).calls.length = s.calls.length := by
  unfold Concurrent.advance
  cases hget : s.calls[i]? with
  | none => exact ⟨hlen, hkeep, hcalls, rfl⟩
  | some c =>
    have hc : Call.sound Rooms0 c := hcalls c (List.getElem?_mem hget)
    have hset : ∀ (c1 : Call), Call.sound Rooms0 c1 →
        ∀ x ∈ s.calls.set i c1, Call.sound Rooms0 x := by
      intro c1 hc1 x hx
      rcases List.mem_or_eq_of_mem_set hx with hx | rfl
      · exact hcalls x hx
      · exact hc1
    cases c with
    | start name =>
      refine ⟨hlen, hkeep, hset _ ?_, by simp⟩
      intro p hp
      obtain ⟨r1, hr1, hvac⟩ := mem_checkVacantRooms s.Rooms p hp
      have hlt : p < Rooms0.length := by
        rw [← hlen]
        by_contra hge
        rw [List.getElem?_eq_none (by omega)] at hr1
        cases hr1
      refine ⟨Rooms0[p], List.getElem?_eq_getElem hlt, ?_⟩
      cases hres : (Rooms0[p]).Reserved with
      | false => rfl
      | true =>
        have := hkeep p _ (List.getElem?_eq_getElem hlt) hres
        rw [hr1] at this
        simp only [Option.some.injEq] at this
        rw [this, hres] at hvac
        cases hvac
    | scanned name vacantRooms =>
      cases vacantRooms with
      | nil => exact ⟨hlen, hkeep, hset _ (Or.inr rfl), by simp⟩
      | cons p more =>
        obtain ⟨r0, hr0, hvac0⟩ := hc p (List.mem_cons_self _ _)
        refine ⟨by simpa [Call.advance, storeAt_length] using hlen, ?_,
          hset _ (Or.inl rfl), by simp⟩
        intro q r hq hres
        have hne : q ≠ p := by
          rintro rfl
          rw [hr0] at hq
          simp only [Option.some.injEq] at hq
          rw [hq, hres] at hvac0
          cases hvac0
        simpa [Call.advance, getElem?_storeAt_ne _ p q _ hne] using hkeep q r hq hres
    | returned err => exact ⟨hlen, hkeep, hset _ hc, by simp⟩

/-- The invariants of `advance_sound` along a whole schedule. -/
theorem runSchedule_sound (Rooms0 : List Room) (schedule : List Nat) (s : Concurrent)
    (hlen : s.Rooms.length = Rooms0.length)
    (hkeep : ∀ (p : Nat) (r : Room), Rooms0[p]? = some r → r.Reserved = true →
      s.Rooms[p]? = some r)
    (hcalls : ∀ c ∈ s.calls, Call.sound Rooms0 c) :
    (runSchedule schedule s).Rooms.length = Rooms0.length ∧
      (∀ (p : Nat) (r : Room), Rooms0[p]? = some r → r.Reserved = true →
        (runSchedule schedule s).Rooms[p]? = some r) ∧
      (∀ c ∈ (runSchedule schedule s).calls, Call.sound Rooms0 c) ∧
      (runSchedule schedule s).calls.length = s.calls.length := by
  induction schedule generalizing s with
  | nil => exact ⟨hlen, hkeep, hcalls, rfl⟩
  | cons i rest ih =>
    obtain ⟨h1, h2, h3, h4⟩ := advance_sound Rooms0 s i hlen hkeep hcalls
    obtain ⟨g1, g2, g3, g4⟩ := ih (s.advance i) h1 h2 h3
    exact ⟨g1, g2, g3, g4.trans h4⟩

theorem advance_at (doneCalls rest : List Call) (c : Call) (pool : List Room) :
    Concurrent.advance doneCalls.length { Rooms := pool, calls := doneCalls ++ c :: rest } =
      { Rooms := (c.advance pool).2, calls := doneCalls ++ (c.advance pool).1 :: rest } := by
  have hget : (doneCalls ++ c :: rest)[doneCalls.length]? = some c := by
    induction doneCalls with
    | nil => simp
    | cons x xs ih => simpa using ih
  simp only [Concurrent.advance, hget]
  rw [List.set_append_right _ _ (Nat.le_refl _)]
  simp

/-- A call that takes both its steps with no other call in between does what
`reserveRooms` does. -/
theorem advance_twice (doneCalls rest : List Call) (name : String) (pool : List Room)
    (o : Outcome) (ho : reserveRooms name pool = some o) :
    Concurrent.advance doneCalls.length (Concurrent.advance doneCalls.length
        { Rooms := pool, calls := doneCalls ++ Call.start name :: rest }) =
      { Rooms := o.Rooms, calls := doneCalls ++ Call.returned o.err :: rest } := by
  rw [advance_at, advance_at]
  rcases vacant_split pool with h | ⟨pre, r, suf, rfl, hpre, hr⟩
  · rw [reserveRooms_full name pool h] at ho
    simp only [Option.some.injEq] at ho
    subst ho
    simp [Call.advance, checkVacantRooms_reserved pool h]
  · rw [reserveRooms_split name pre suf r hpre hr] at ho
    simp only [Option.some.injEq] at ho
    subst ho
    obtain ⟨more, hmore⟩ := checkVacantRooms_split pre suf r hpre hr
    simp [Call.advance, hmore, storeAt_append]

/-- The two ways a `reserveRooms` call can end, with the size of the scan. -/
theorem reserveRooms_cases (name : String) (pool : List Room) :
    ∃ o, reserveRooms name pool = some o ∧
      ((o.err = some errNoRooms ∧ o.Rooms = pool ∧ (checkVacantRooms pool).length = 0) ∨
        (o.err = none ∧
          (checkVacantRooms o.Rooms).length + 1 = (checkVacantRooms pool).length)) := by
  rcases vacant_split pool with h | ⟨pre, r, suf, rfl, hpre, hr⟩
  · exact ⟨_, reserveRooms_full name pool h, Or.inl ⟨rfl, rfl, by
      simp [checkVacantRooms_reserved pool h]⟩⟩
  · refine ⟨_, reserveRooms_split name pre suf r hpre hr, Or.inr ⟨rfl, ?_⟩⟩
    simp only [checkVacantRooms_length, List.countP_append]
    rw [List.countP_cons_of_neg _ _ (by simp [Room.bookRoom]),
      List.countP_cons_of_pos _ _ (by simp [hr])]
    omega

/-- Calls that run one at a time behave as the same calls made in sequence, and
as many succeed as there are names or vacant rooms, whichever is fewer. -/
theorem runSchedule_serial (names : List String) (doneCalls : List Call) (pool : List Room) :
    ∃ final os, runOps (names.map Op.reserve) pool = some (final, os) ∧
      runSchedule (serialSchedule doneCalls.length names.length)
          { Rooms := pool, calls := doneCalls ++ names.map Call.start } =
        { Rooms := final, calls := doneCalls ++ os.map (fun o => Call.returned o.err) } ∧
      os.length = names.length ∧
      (os.map (fun o => Call.returned o.err)).countP
          (fun c => decide (c = Call.returned none)) =
        min names.length (checkVacantRooms pool).length ∧
      (os.map (fun o => Call.returned o.err)).countP
            (fun c => decide (c = Call.returned none)) +
          (os.map (fun o => Call.returned o.err)).countP
            (fun c => decide (c = Call.returned (some errNoRooms))) = names.length := by
  induction names generalizing doneCalls pool with
  | nil => exact ⟨pool, [], rfl, by simp [serialSchedule, runSchedule], rfl, by simp, by simp⟩
  | cons n ns ih =>
    obtain ⟨o, ho, hcase⟩ := reserveRooms_cases n pool
    obtain ⟨final, os, hrun, hsched, hlen, hcount, hsum⟩ :=
      ih (doneCalls ++ [Call.returned o.err]) o.Rooms
    refine ⟨final, o :: os, by simp [runOps, step, ho, hrun], ?_, by simp [hlen], ?_, ?_⟩
    · simp only [List.length_cons, serialSchedule, runSchedule, List.map_cons]
      rw [advance_twice doneCalls _ n pool o ho]
      simp only [List.length_append, List.length_singleton, List.append_assoc,
        List.singleton_append] at hsched
      rw [hsched]
    · rcases hcase with ⟨he, hsame, hzero⟩ | ⟨he, hone⟩
      · rw [hsame, hzero] at hcount
        rw [List.map_cons, List.countP_cons_of_neg _ _ (by simp [he]), hcount, hzero]
        simp
      · rw [List.map_cons, List.countP_cons_of_pos _ _ (by simp [he]), hcount]
        simp only [List.length_cons]
        omega
    · rcases hcase with ⟨he, -, -⟩ | ⟨he, -⟩
      · rw [List.map_cons, List.countP_cons_of_neg _ _ (by simp [he]),
          List.countP_cons_of_pos _ _ (by simp [he])]
        simp only [List.length_cons]
        omega
      · rw [List.map_cons, List.countP_cons_of_pos _ _ (by simp [he]),
          List.countP_cons_of_neg _ _ (by simp [he])]
        simp only [List.length_cons]
        omega

/-- What the code does keep for `M` calls of `reserveRooms`, each a scan step
followed by a separate booking step.  Under every interleaving the pool keeps
its length, every room that was reserved at the start is left as it was, and
every call that has returned returned `nil` or the no-rooms-available error.
When the calls run in turn with no interleaving, the result is that of the
same calls made in sequence: as many succeed as there are calls or vacant
rooms, whichever is fewer, and all the others fail with the
no-rooms-available error. -/
theorem concurrent_calls_guarantees (Rooms0 : List Room) (names : List String) :
    (∀ (schedule : List Nat),
      (runSchedule schedule (launch names Rooms0)).Rooms.length = Rooms0.length ∧
      (runSchedule schedule (launch names Rooms0)).calls.length = names.length ∧
      (∀ (p : Nat) (r : Room), Rooms0[p]? = some r → r.Reserved = true →
        (runSchedule schedule (launch names Rooms0)).Rooms[p]? = some r) ∧
      (∀ (err : Option String),
        Call.returned err ∈ (runSchedule schedule (launch names Rooms0)).calls →
          err = none ∨ err = some errNoRooms)) ∧
    (∃ final os, runOps (names.map Op.reserve) Rooms0 = some (final, os) ∧
      runSchedule (serialSchedule 0 names.length) (launch names Rooms0) =
        { Rooms := final, calls := os.map (fun o => Call.returned o.err) }) ∧
    succeeded (runSchedule (serialSchedule 0 names.length) (launch names Rooms0)) =
      min names.length (checkVacantRooms Rooms0).length ∧
    succeeded (runSchedule (serialSchedule 0 names.length) (launch names Rooms0)) ≤
      (checkVacantRooms Rooms0).length ∧
    succeeded (runSchedule (serialSchedule 0 names.length) (launch names Rooms0)) +
        failed (runSchedule (serialSchedule 0 names.length) (launch names Rooms0)) =
      names.length := by
  obtain ⟨final, os, hrun, hsched, -, hcount, hsum⟩ := runSchedule_serial names [] Rooms0
  have hsched1 : runSchedule (serialSchedule 0 names.length) (launch names Rooms0) =
      { Rooms := final, calls := os.map (fun o => Call.returned o.err) } := by
    simpa [launch] using hsched
  refine ⟨?_, ⟨final, os, hrun, hsched1⟩, ?_, ?_, ?_⟩
  · intro schedule
    obtain ⟨h1, h2, h3, h4⟩ := runSchedule_sound Rooms0 schedule (launch names Rooms0) rfl
      (fun p r hp _ => hp)
      (by
        intro c hc
        obtain ⟨n, -, rfl⟩ := List.mem_map.1 hc
        trivial)
    exact ⟨h1, by simpa [launch] using h4, h2, fun err herr => h3 _ herr⟩
  · rw [hsched1]
    exact hcount
  · rw [hsched1]
    show (os.map (fun o => Call.returned o.err)).countP _ ≤ _
    rw [hcount]
    exact Nat.min_le_right _ _
  · rw [hsched1]
    exact hsum

end Hotel
